import Mathlib

/-!
Verification development for the NexumDB core: a shallow embedding of the
query-execution layer (catalog, key layout, expression evaluator, type
coercer, executor, result cache) together with theorems about the embedded
definitions.  Each definition carries a note pointing at the Rust source it
embeds (paths relative to the repository root).
-/

namespace NexumDB

/-! ## Data model

Modelled from the spec (sections 3 and 6): the module `src/nexum_core/src/sql/types.rs`
is declared in `sql/mod.rs` but its file is not present in the source tree.
Its shape is pinned by the spec and by every use site in `executor/mod.rs`,
`executor/filter.rs`, `catalog/mod.rs` and `sql/parser.rs`. -/

/-- Modelled from the spec: declared column types (spec section 3); `DataType` in the
missing `sql/types.rs`.  The `null` tag exists (the catalog decoder falls back to
it) but is forbidden on column definitions. -/
inductive DataType where
  | integer
  | float
  | text
  | boolean
  | null
deriving DecidableEq, Repr

/-- Modelled from the spec: runtime values (spec section 3); `Value` in the missing
`sql/types.rs`.  Rust `i64` is modelled as `Int` (comparisons agree on the
64-bit range; parses and casts carry explicit range checks below).  Rust `f64`
is modelled as `ℚ`: every finite double is a rational, and the operations the
code performs on floats (comparison, subtraction, `fract`, truncation) are
exact on those rationals; NaN and the infinities are not modelled. -/
inductive Value where
  | integer (i : Int)
  | float (f : ℚ)
  | text (t : String)
  | boolean (b : Bool)
  | null
deriving DecidableEq, Repr

/-- Modelled from the spec: a column of a table schema (spec section 3). -/
structure Column where
  name : String
  data_type : DataType
deriving DecidableEq, Repr

/-- Modelled from the spec: a table schema (spec section 3). -/
structure TableSchema where
  name : String
  columns : List Column
deriving DecidableEq, Repr

/-- A stored row: `Row` in `executor/mod.rs` (lines 11-14). -/
structure Row where
  values : List Value
deriving DecidableEq, Repr

/-- Modelled from the spec: one `ORDER BY` key (spec section 6); `OrderByClause`
in the missing `sql/types.rs`, built by `sql/parser.rs` line 173. -/
structure OrderByClause where
  column : String
  ascending : Bool
deriving DecidableEq, Repr

/-- Modelled from the spec: one projection item of a `SELECT` (spec section 6);
`SelectItem` in the missing `sql/types.rs`. -/
inductive SelectItem where
  | wildcard
  | column (name : String) (colAlias : Option String)
deriving DecidableEq, Repr

/-- `StorageError` from `storage/error.rs`. -/
inductive StorageError where
  | openError (msg : String)
  | writeError (msg : String)
  | readError (msg : String)
  | keyNotFound (msg : String)
  | serializationError (msg : String)
deriving DecidableEq, Repr

instance {ε α : Type} [DecidableEq ε] [DecidableEq α] : DecidableEq (Except ε α) :=
  fun x y =>
    match x, y with
    | .ok a, .ok b => decidable_of_iff (a = b) (by simp)
    | .error a, .error b => decidable_of_iff (a = b) (by simp)
    | .ok _, .error _ => isFalse (by simp)
    | .error _, .ok _ => isFalse (by simp)

/-! ## The predicate AST

The evaluator consumes `sqlparser::ast::Expr`.  Only the variants that
`executor/filter.rs` inspects are embedded; every other variant is collapsed
into `otherExpr` / `otherOp` / `otherVal`, which the evaluator rejects exactly
as the Rust catch-all arms do. -/

/-- The fragment of `sqlparser::ast::BinaryOperator` that `filter.rs` handles. -/
inductive BinaryOperator where
  | and
  | or
  | gt
  | lt
  | gtEq
  | ltEq
  | eq
  | notEq
  | otherOp
deriving DecidableEq, Repr

/-- The fragment of `sqlparser::ast::Value` that `convert_sql_value`
(`filter.rs` lines 102-118) handles. -/
inductive SqlValue where
  | number (n : String)
  | singleQuotedString (s : String)
  | doubleQuotedString (s : String)
  | boolean (b : Bool)
  | null
  | otherVal
deriving DecidableEq, Repr

/-- The fragment of `sqlparser::ast::Expr` that `evaluate` (`filter.rs`
lines 15-52) handles. -/
inductive Expr where
  | binaryOp (left : Expr) (op : BinaryOperator) (right : Expr)
  | identifier (name : String)
  | value (v : SqlValue)
  | like (negated : Bool) (expr : Expr) (pattern : Expr) (escapeChar : Option Char)
  | inList (expr : Expr) (list : List Expr) (negated : Bool)
  | between (expr : Expr) (negated : Bool) (low : Expr) (high : Expr)
  | otherExpr
deriving Repr

/-! ## Numeric helpers: the exact f64 and i64 operations the code uses -/

/-- Rust `f64::trunc` / the integral part of an `as i64` cast, on the rational
model: round toward zero. -/
def ratTrunc (q : ℚ) : Int :=
  if 0 ≤ q then ⌊q⌋ else ⌈q⌉

/-- Rust `f64::fract`: `self - self.trunc()`, exact on the rational model. -/
def ratFract (q : ℚ) : ℚ :=
  q - (ratTrunc q : ℚ)

/-- `i64::MIN`. -/
def i64Min : Int := -(2 ^ 63)

/-- `i64::MAX`. -/
def i64Max : Int := 2 ^ 63 - 1

/-- Rust `f64 as i64`: truncate toward zero, saturating at the `i64` bounds
(NaN, which would cast to 0, is not representable in the rational model). -/
def f64AsI64 (q : ℚ) : Int :=
  max i64Min (min i64Max (ratTrunc q))

/-- `f64::EPSILON` (2^-52), used by the float equality in `compare_values`
and `values_equal`. -/
def f64Epsilon : ℚ := 1 / 2 ^ 52

/-- The value of one decimal digit character, or `none`. -/
def digitVal? (c : Char) : Option Nat :=
  if 48 ≤ c.toNat ∧ c.toNat ≤ 57 then some (c.toNat - 48) else none

/-- The numeric value of a nonempty all-digit character list, or `none`. -/
def parseNatDigits (cs : List Char) : Option Nat :=
  match cs with
  | [] => none
  | _ => go 0 cs
where
  go (acc : Nat) : List Char → Option Nat
    | [] => some acc
    | c :: rest =>
      match digitVal? c with
      | some d => go (acc * 10 + d) rest
      | none => none

/-- Rust `str::parse::<i64>`: an optional minus sign followed by digits,
rejecting values outside the 64-bit range.  (A leading `+`, which Rust also
accepts, is not modelled; no theorem depends on it.) -/
def parseI64 (s : String) : Option Int :=
  match s.data with
  | '-' :: rest =>
    (parseNatDigits rest).bind (fun n =>
      if i64Min ≤ -(n : Int) then some (-(n : Int)) else none)
  | cs =>
    (parseNatDigits cs).bind (fun n =>
      if (n : Int) ≤ i64Max then some (n : Int) else none)

/-- Rust `str::parse::<f64>` on the plain decimal fragment `[-]digits[.digits]`
(exponents, `inf`, `NaN`, and forms with a missing digit group are not
modelled; no theorem depends on them).  Exact on the rational model. -/
def parseF64 (s : String) : Option ℚ :=
  let signed : Bool × List Char :=
    match s.data with
    | '-' :: rest => (true, rest)
    | cs => (false, cs)
  let neg := signed.1
  let cs := signed.2
  let intPart := cs.takeWhile (fun c => c ≠ '.')
  match cs.dropWhile (fun c => c ≠ '.') with
  | [] => (parseNatDigits intPart).map (fun n => if neg then -(n : ℚ) else (n : ℚ))
  | _ :: fracPart =>
    if fracPart.any (fun c => c = '.') then none
    else
      match parseNatDigits intPart, parseNatDigits fracPart with
      | some ip, some fp =>
        let q : ℚ := (ip : ℚ) + (fp : ℚ) / (10 ^ fracPart.length : ℚ)
        some (if neg then -q else q)
      | _, _ => none

/-! ## Byte strings and the ordered KV store

`storage/engine.rs` wraps a sled tree: an ordered byte-keyed map with get,
set, delete, prefix scan (in key order) and batched set.  Bytes are modelled
as `List Nat`; the store as an association list kept sorted by the
byte-lexicographic order, so that `scan_prefix` returns entries in key
order exactly as sled does. -/

abbrev Bytes := List Nat

/-- UTF-8 encoding of one code point. -/
def utf8Bytes (c : Char) : Bytes :=
  let n := c.toNat
  if n < 0x80 then [n]
  else if n < 0x800 then [0xC0 + n / 64, 0x80 + n % 64]
  else if n < 0x10000 then [0xE0 + n / 4096, 0x80 + (n / 64) % 64, 0x80 + n % 64]
  else [0xF0 + n / 262144, 0x80 + (n / 4096) % 64, 0x80 + (n / 64) % 64, 0x80 + n % 64]

/-- Rust `str::as_bytes` / `String::into_bytes`: the UTF-8 bytes of a string. -/
def strBytes (s : String) : Bytes :=
  s.data.flatMap utf8Bytes

/-- Strict byte-lexicographic order on byte strings (sled's key order). -/
def bytesLt : Bytes → Bytes → Bool
  | [], [] => false
  | [], _ :: _ => true
  | _ :: _, [] => false
  | a :: as', b :: bs => a < b || (a = b && bytesLt as' bs)

/-- Big-endian fixed-width byte encoding: `beBytes w v` is the low `w` bytes
of `v`, most significant first (Rust `uN::to_be_bytes`). -/
def beBytes : Nat → Nat → Bytes
  | 0, _ => []
  | w + 1, v => beBytes w (v / 256) ++ [v % 256]

/-- What a stored byte value decodes to.  The serde-JSON wire format is
modelled at the level the executor observes it: a value either decodes as a
`Row`, or decodes as a `CatalogEntry`, or fails to decode (`badVal`). -/
inductive StoredVal where
  | rowVal (r : Row)
  | schemaVal (name : String) (columns : List (String × String))
  | badVal
deriving DecidableEq, Repr

/-- `serde_json::from_slice::<Row>`, on the modelled wire format. -/
def decodeRow : StoredVal → Option Row
  | .rowVal r => some r
  | _ => none

/-- The KV map: association list sorted by `bytesLt` on keys. -/
abbrev KV := List (Bytes × StoredVal)

/-- `StorageEngine::get` (`engine.rs` lines 30-35). -/
def kvGet : KV → Bytes → Option StoredVal
  | [], _ => none
  | (k, v) :: rest, key => if key = k then some v else kvGet rest key

/-- `StorageEngine::set` (`engine.rs` lines 24-28): insert or replace,
keeping the list sorted by key. -/
def kvSet : KV → Bytes → StoredVal → KV
  | [], key, v => [(key, v)]
  | (k, w) :: rest, key, v =>
    if bytesLt key k then (key, v) :: (k, w) :: rest
    else if key = k then (key, v) :: rest
    else (k, w) :: kvSet rest key v

/-- `StorageEngine::delete` (`engine.rs` lines 37-40). -/
def kvDelete : KV → Bytes → KV
  | [], _ => []
  | (k, w) :: rest, key => if key = k then rest else (k, w) :: kvDelete rest key

/-- `StorageEngine::scan_prefix` (`engine.rs` lines 52-59): all entries whose
key extends the prefix, in key order (the list is kept sorted). -/
def prefixScan (kv : KV) (p : Bytes) : KV :=
  kv.filter (fun e => List.isPrefixOf p e.1)

/-- `StorageEngine::batch_set` (`engine.rs` lines 42-50): one atomic batch,
equivalent to setting every pair in order. -/
def batch_set (kv : KV) (operations : List (Bytes × StoredVal)) : KV :=
  operations.foldl (fun acc op => kvSet acc op.1 op.2) kv

/-! ## The LIKE regex model

`evaluate_like` (`filter.rs` lines 167-189) rewrites the SQL pattern by the
two string replacements `%` to `.*` and `_` to `.`, wraps it in `^...$`, and
hands it to the Rust `regex` crate; no other character is escaped.  The crate
is an external dependency, so its behaviour on the strings this translation
can produce is modelled here: a sequence of single-character atoms (a literal
character, or `.` matching any code point) each optionally followed by a
repetition `*`, `+` or `?`; a repetition with no preceding atom, a doubled
repetition other than a lazy `?`, and the group and class meta-characters
`( ) [ ] \x7b \x7d \ | ^ $` are mapped to a parse failure (the crate indeed
rejects unbalanced `( ) [`; the remaining ones have richer semantics that no
theorem below relies on).  The `^...$` anchors are modelled as whole-string
matching. -/

/-- A single-character regex atom. -/
inductive RAtom where
  | lit (c : Char)
  | anyChar
deriving DecidableEq, Repr

/-- A repetition marker on an atom. -/
inductive RRep where
  | once
  | star
  | plus
  | opt
deriving DecidableEq, Repr

/-- One parsed regex token: an atom with its repetition. -/
structure RTok where
  atom : RAtom
  rep : RRep
deriving DecidableEq, Repr

/-- Characters the regex model maps to a parse failure. -/
def regexMetaErr (c : Char) : Bool :=
  c = '(' || c = ')' || c = '[' || c = ']' || c = '\x7b' || c = '\x7d' ||
  c = '\\' || c = '|' || c = '^' || c = '$'

/-- Parser for the modelled regex fragment; `acc` holds tokens in reverse. -/
def parseRegexAux : List RTok → List Char → Option (List RTok)
  | acc, [] => some acc.reverse
  | acc, c :: cs =>
    if c = '.' then parseRegexAux ({ atom := .anyChar, rep := .once } :: acc) cs
    else if c = '*' || c = '+' || c = '?' then
      match acc with
      | [] => none
      | t :: ts =>
        if t.rep = .once then
          let rep : RRep := if c = '*' then .star else if c = '+' then .plus else .opt
          parseRegexAux ({ t with rep := rep } :: ts) cs
        else if c = '?' then
          parseRegexAux (t :: ts) cs
        else none
    else if regexMetaErr c then none
    else parseRegexAux ({ atom := .lit c, rep := .once } :: acc) cs

/-- Parse a whole regex body (the part between the `^` and `$` anchors). -/
def parseRegex (cs : List Char) : Option (List RTok) :=
  parseRegexAux [] cs

/-- Does a single-character atom match one code point. -/
def regexMatchAtom : RAtom → Char → Bool
  | .lit c, x => x = c
  | .anyChar, _ => true

/-- Matching worker: every recursive call strictly decreases
`toks.length + text.length`, so running it with that much fuel computes the
match; the fuel exists only to keep the recursion structural (hence
kernel-reducible), and the zero-fuel arm is unreachable from `regexMatch`. -/
def regexMatchFuel : Nat → List RTok → List Char → Bool
  | _, [], [] => true
  | _, [], _ :: _ => false
  | 0, _ :: _, _ => false
  | fuel + 1, t :: rest, text =>
    match t.rep with
    | .once =>
      match text with
      | [] => false
      | x :: xs => regexMatchAtom t.atom x && regexMatchFuel fuel rest xs
    | .opt =>
      regexMatchFuel fuel rest text ||
        (match text with
          | [] => false
          | x :: xs => regexMatchAtom t.atom x && regexMatchFuel fuel rest xs)
    | .star =>
      regexMatchFuel fuel rest text ||
        (match text with
          | [] => false
          | x :: xs => regexMatchAtom t.atom x && regexMatchFuel fuel (t :: rest) xs)
    | .plus =>
      match text with
      | [] => false
      | x :: xs =>
        regexMatchAtom t.atom x &&
          regexMatchFuel fuel ({ t with rep := .star } :: rest) xs

/-- Whole-string matching of a token sequence (the semantics of
`Regex::is_match` against the anchored pattern). -/
def regexMatch (toks : List RTok) (text : List Char) : Bool :=
  regexMatchFuel (toks.length + text.length) toks text

/-! ## The expression evaluator (`executor/filter.rs`) -/

/-- `ExpressionEvaluator` (`filter.rs` lines 6-13). -/
structure ExpressionEvaluator where
  column_names : List String
deriving Repr

/-- Evaluator errors are `anyhow` strings in the source; modelled as `String`. -/
abbrev EvalResult (α : Type) := Except String α

/-- `ExpressionEvaluator::convert_sql_value` (`filter.rs` lines 102-118). -/
def ExpressionEvaluator.convert_sql_value (_self : ExpressionEvaluator)
    (sql_val : SqlValue) : EvalResult Value :=
  match sql_val with
  | .number n =>
    if n.data.any (fun c => c = '.') then
      match parseF64 n with
      | some q => .ok (Value.float q)
      | none => .error "invalid float literal"
    else
      match parseI64 n with
      | some i => .ok (Value.integer i)
      | none => .error "invalid integer literal"
  | .singleQuotedString s => .ok (Value.text s)
  | .doubleQuotedString s => .ok (Value.text s)
  | .boolean b => .ok (Value.boolean b)
  | .null => .ok Value.null
  | .otherVal => .error "Unsupported SQL value"

/-- `ExpressionEvaluator::extract_value` (`filter.rs` lines 86-100).
Note: the source indexes `row_values[idx]` and would panic on a row shorter
than the schema; the model returns `Value.null` there, and every theorem
below applies it only to rows of matching arity. -/
def ExpressionEvaluator.extract_value (self : ExpressionEvaluator)
    (expr : Expr) (row_values : List Value) : EvalResult Value :=
  match expr with
  | .identifier colName =>
    match self.column_names.findIdx? (fun name => name = colName) with
    | some idx => .ok (row_values.getD idx Value.null)
    | none => .error ("Column " ++ colName ++ " not found")
  | .value sqlVal => self.convert_sql_value sqlVal
  | _ => .error "Cannot extract value from expression"

/-- `ExpressionEvaluator::compare_values` (`filter.rs` lines 120-165). -/
def ExpressionEvaluator.compare_values (_self : ExpressionEvaluator)
    (left : Value) (op : BinaryOperator) (right : Value) : EvalResult Bool :=
  match left, right with
  | .integer l, .integer r =>
    match op with
    | .eq => .ok (l = r)
    | .notEq => .ok (l ≠ r)
    | .gt => .ok (l > r)
    | .lt => .ok (l < r)
    | .gtEq => .ok (l ≥ r)
    | .ltEq => .ok (l ≤ r)
    | _ => .error "Invalid operator for integers"
  | .float l, .float r =>
    match op with
    | .eq => .ok (|l - r| < f64Epsilon)
    | .notEq => .ok (|l - r| ≥ f64Epsilon)
    | .gt => .ok (l > r)
    | .lt => .ok (l < r)
    | .gtEq => .ok (l ≥ r)
    | .ltEq => .ok (l ≤ r)
    | _ => .error "Invalid operator for floats"
  | .text l, .text r =>
    match op with
    | .eq => .ok (l = r)
    | .notEq => .ok (l ≠ r)
    | .gt => .ok (l > r)
    | .lt => .ok (l < r)
    | .gtEq => .ok (l ≥ r)
    | .ltEq => .ok (l ≤ r)
    | _ => .error "Invalid operator for text"
  | .boolean l, .boolean r =>
    match op with
    | .eq => .ok (l = r)
    | .notEq => .ok (l ≠ r)
    | _ => .error "Invalid operator for booleans"
  | .null, .null =>
    match op with
    | .eq => .ok true
    | .notEq => .ok false
    | _ => .error "Invalid operator for nulls"
  | _, _ => .error "Type mismatch in comparison"

/-- `ExpressionEvaluator::values_equal` (`filter.rs` lines 231-240). -/
def ExpressionEvaluator.values_equal (_self : ExpressionEvaluator)
    (left right : Value) : Bool :=
  match left, right with
  | .integer l, .integer r => l = r
  | .float l, .float r => |l - r| < f64Epsilon
  | .text l, .text r => l = r
  | .boolean l, .boolean r => l = r
  | .null, .null => true
  | _, _ => false

/-- The two replacements `pat.replace('%', ".*").replace('_', ".")` of
`evaluate_like`, fused into one character map — valid because both search
patterns are single characters and the first replacement's output `.*`
contains no `_`. -/
def likeRegexChars (pat : List Char) : List Char :=
  pat.flatMap (fun c =>
    if c = '%' then ['.', '*']
    else if c = '_' then ['.']
    else [c])

/-- `ExpressionEvaluator::evaluate_like` (`filter.rs` lines 167-189): the
pattern is rewritten by the two unescaped string replacements and handed to
the regex engine (modelled above); the escape character is ignored. -/
def ExpressionEvaluator.evaluate_like (self : ExpressionEvaluator)
    (negated : Bool) (expr : Expr) (pattern : Expr) (_escapeChar : Option Char)
    (row_values : List Value) : EvalResult Bool := do
  let value ← self.extract_value expr row_values
  let patternVal ← self.extract_value pattern row_values
  match value, patternVal with
  | .text text, .text pat =>
    match parseRegex (likeRegexChars pat.data) with
    | none => .error "Invalid LIKE pattern"
    | some toks =>
      let matches' := regexMatch toks text.data
      .ok (if negated then !matches' else matches')
  | _, _ => .error "LIKE operator requires text values"

/-- The scan loop of `evaluate_in_list`: extract each list element in order,
stopping at the first equal one (the Rust loop breaks on a match, so later
elements are not extracted). -/
def ExpressionEvaluator.inListFound (self : ExpressionEvaluator)
    (value : Value) (row_values : List Value) : List Expr → EvalResult Bool
  | [] => .ok false
  | listExpr :: rest => do
    let listVal ← self.extract_value listExpr row_values
    if self.values_equal value listVal then .ok true
    else self.inListFound value row_values rest

/-- `ExpressionEvaluator::evaluate_in_list` (`filter.rs` lines 191-210). -/
def ExpressionEvaluator.evaluate_in_list (self : ExpressionEvaluator)
    (expr : Expr) (list : List Expr) (negated : Bool)
    (row_values : List Value) : EvalResult Bool := do
  let value ← self.extract_value expr row_values
  let found ← self.inListFound value row_values list
  .ok (if negated then !found else found)

/-- `ExpressionEvaluator::evaluate_between` (`filter.rs` lines 212-229). -/
def ExpressionEvaluator.evaluate_between (self : ExpressionEvaluator)
    (expr : Expr) (negated : Bool) (low high : Expr)
    (row_values : List Value) : EvalResult Bool := do
  let value ← self.extract_value expr row_values
  let lowVal ← self.extract_value low row_values
  let highVal ← self.extract_value high row_values
  let gteLow ← self.compare_values value .gtEq lowVal
  let lteHigh ← self.compare_values value .ltEq highVal
  let inRange := gteLow && lteHigh
  .ok (if negated then !inRange else inRange)

/-- `ExpressionEvaluator::evaluate` (`filter.rs` lines 15-52), with the body
of its mutually recursive companion `evaluate_binary_op` (lines 54-84)
inlined into the `binaryOp` arm so that the recursion is structural on the
expression. -/
def ExpressionEvaluator.evaluate (self : ExpressionEvaluator) :
    Expr → List Value → EvalResult Bool
  | .binaryOp left op right, row_values =>
    match op with
    | .and => do
      let leftResult ← self.evaluate left row_values
      let rightResult ← self.evaluate right row_values
      .ok (leftResult && rightResult)
    | .or => do
      let leftResult ← self.evaluate left row_values
      let rightResult ← self.evaluate right row_values
      .ok (leftResult || rightResult)
    | .gt | .lt | .gtEq | .ltEq | .eq | .notEq => do
      let leftVal ← self.extract_value left row_values
      let rightVal ← self.extract_value right row_values
      self.compare_values leftVal op rightVal
    | .otherOp => .error "Unsupported operator"
  | .identifier colName, row_values =>
    match self.column_names.findIdx? (fun name => name = colName) with
    | some idx =>
      match row_values.getD idx Value.null with
      | .boolean b => .ok b
      | _ => .error "Expected boolean value for identifier"
    | none => .error ("Column " ++ colName ++ " not found")
  | .like negated e pat esc, row_values =>
    self.evaluate_like negated e pat esc row_values
  | .inList e list negated, row_values =>
    self.evaluate_in_list e list negated row_values
  | .between e negated low high, row_values =>
    self.evaluate_between e negated low high row_values
  | .value _, _ => .error "Unsupported expression type"
  | .otherExpr, _ => .error "Unsupported expression type"

/-! ## The type coercer (`executor/mod.rs` lines 572-662) -/

/-- ASCII whitespace test (Rust `str::trim` trims Unicode whitespace; the
ASCII subset suffices for every theorem below). -/
def isAsciiWS (c : Char) : Bool :=
  c = ' ' || c = '\t' || c = '\n' || c = '\r'

/-- Rust `str::trim` on the ASCII-whitespace model. -/
def trimChars (cs : List Char) : List Char :=
  ((cs.dropWhile isAsciiWS).reverse.dropWhile isAsciiWS).reverse

/-- ASCII lowercasing of one character (Rust `str::to_lowercase` on the
ASCII subset, which is all the boolean keywords need). -/
def asciiToLower (c : Char) : Char :=
  if 65 ≤ c.toNat ∧ c.toNat ≤ 90 then Char.ofNat (c.toNat + 32) else c

/-- `Executor::format_value` (`executor/mod.rs` lines 654-662).  The float
arm models Rust `f64::to_string` as the decimal rendering of the rational;
no theorem depends on its exact digits. -/
def format_value (value : Value) : String :=
  match value with
  | .integer i => toString i
  | .float f => toString f
  | .text t => t
  | .boolean b => toString b
  | .null => "NULL"

/-- `Executor::coerce_value` (`executor/mod.rs` lines 572-652).  The quoted
column name in the Rust messages is rendered unquoted here. -/
def coerce_value (column_name : String) (expected : DataType) (value : Value) :
    Except StorageError Value :=
  match value with
  | .null => .ok .null
  | _ =>
    match expected with
    | .integer =>
      match value with
      | .integer _ => .ok value
      | .float f =>
        if ratFract f = 0 then .ok (.integer (f64AsI64 f))
        else .error (.writeError
          ("Type mismatch for column " ++ column_name ++ ": expected Integer, got Float"))
      | .text t =>
        match parseI64 t with
        | some i => .ok (.integer i)
        | none => .error (.writeError
          ("Type mismatch for column " ++ column_name ++ ": expected Integer, got Text"))
      | .boolean b => .ok (.integer (if b then 1 else 0))
      | .null => .ok .null
    | .float =>
      match value with
      | .float _ => .ok value
      | .integer i => .ok (.float (i : ℚ))
      | .text t =>
        match parseF64 t with
        | some f => .ok (.float f)
        | none => .error (.writeError
          ("Type mismatch for column " ++ column_name ++ ": expected Float, got Text"))
      | .boolean b => .ok (.float (if b then 1 else 0))
      | .null => .ok .null
    | .text => .ok (.text (format_value value))
    | .boolean =>
      match value with
      | .boolean _ => .ok value
      | .integer i =>
        if i = 0 then .ok (.boolean false)
        else if i = 1 then .ok (.boolean true)
        else .error (.writeError
          ("Type mismatch for column " ++ column_name ++ ": expected Boolean, got Integer"))
      | .float f =>
        if f = 0 then .ok (.boolean false)
        else if f = 1 then .ok (.boolean true)
        else .error (.writeError
          ("Type mismatch for column " ++ column_name ++ ": expected Boolean, got Float"))
      | .text t =>
        let normalized := String.mk ((trimChars t.data).map asciiToLower)
        if normalized = "true" || normalized = "1" then .ok (.boolean true)
        else if normalized = "false" || normalized = "0" then .ok (.boolean false)
        else .error (.writeError
          ("Type mismatch for column " ++ column_name ++ ": expected Boolean, got Text"))
      | .null => .ok .null
    | .null => .error (.writeError
        ("Column " ++ column_name ++ " does not accept non-null values"))

/-! ## ORDER BY sorting (`executor/mod.rs` lines 141-176)

Rust's `slice::sort_by` is a stable sort by a caller comparator; it is
modelled by `List.insertionSort` (stable, and extensionally equal to any
other stable sort whenever the comparator is a total preorder). -/

/-- The comparator body of the `sort_by` closure (`executor/mod.rs` lines
157-165): same-tag comparison, every cross-tag pair equal.  On the rational
float model `partial_cmp` is total, so its `unwrap_or(Equal)` NaN fallback
is unreachable.  Text comparison is code-point order, which on UTF-8
strings coincides with the byte order Rust compares with. -/
def value_cmp (a b : Value) : Ordering :=
  match a, b with
  | .integer av, .integer bv => compare av bv
  | .float av, .float bv => compare av bv
  | .text av, .text bv => compare av bv
  | .boolean av, .boolean bv => compare av bv
  | _, _ => .eq

/-- The full comparator of one `ORDER BY` key (`executor/mod.rs` lines
156-172): compare the key column's values, then invert for descending. -/
def order_cmp (colIdx : Nat) (ascending : Bool) (a b : Row) : Ordering :=
  let ordering := value_cmp (a.values.getD colIdx .null) (b.values.getD colIdx .null)
  if ascending then ordering else ordering.swap

/-- The non-strict relation induced by a comparator, as `sort_by` consumes
it: `a` may precede `b` unless the comparator says greater. -/
def cmpLe (colIdx : Nat) (ascending : Bool) (a b : Row) : Prop :=
  order_cmp colIdx ascending a b ≠ .gt

instance (colIdx : Nat) (ascending : Bool) : DecidableRel (cmpLe colIdx ascending) :=
  fun a b => by unfold cmpLe; infer_instance

/-- One `rows.sort_by(...)` call for one order key. -/
def sortByClause (colIdx : Nat) (ascending : Bool) (rows : List Row) : List Row :=
  List.insertionSort (cmpLe colIdx ascending) rows

/-- The ORDER BY loop (`executor/mod.rs` lines 145-173): resolve each key
column (error if absent) and stably sort, iterating the declared keys in
reverse order. -/
def applyOrderBy (column_names : List String) (table : String)
    (clauses : List OrderByClause) (rows : List Row) :
    Except StorageError (List Row) :=
  clauses.reverse.foldlM
    (fun rs oc =>
      match column_names.findIdx? (fun c => c = oc.column) with
      | some colIdx => .ok (sortByClause colIdx oc.ascending rs)
      | none => .error (.readError
          ("Column " ++ oc.column ++ " not found in table " ++ table)))
    rows

/-! ## The catalog (`catalog/mod.rs`) -/

/-- `Catalog::CATALOG_PREFIX` (`catalog/mod.rs` line 16). -/
def catalogPrefixBytes : Bytes := strBytes "catalog:"

/-- `Catalog::table_key` (`catalog/mod.rs` lines 90-94). -/
def Catalog.table_key (name : String) : Bytes :=
  catalogPrefixBytes ++ strBytes name

/-- `format!("{:?}", data_type)`: the debug rendering the catalog persists
(`catalog/mod.rs` line 34). -/
def dataTypeDebug : DataType → String
  | .integer => "Integer"
  | .float => "Float"
  | .text => "Text"
  | .boolean => "Boolean"
  | .null => "Null"

/-- `Catalog::parse_data_type` (`catalog/mod.rs` lines 96-105): unknown
discriminators fall back to `Null`. -/
def Catalog.parse_data_type (s : String) : DataType :=
  if s = "Integer" then .integer
  else if s = "Float" then .float
  else if s = "Text" then .text
  else if s = "Boolean" then .boolean
  else .null

/-- `Catalog::create_table` (`catalog/mod.rs` lines 22-46), returning the
updated KV map. -/
def Catalog.create_table (kv : KV) (name : String) (columns : List Column) :
    Except StorageError KV :=
  let key := Catalog.table_key name
  match kvGet kv key with
  | some _ => .error (.writeError ("Table " ++ name ++ " already exists"))
  | none =>
    let cols := columns.map (fun c => (c.name, dataTypeDebug c.data_type))
    .ok (kvSet kv key (.schemaVal name cols))

/-- `Catalog::get_table` (`catalog/mod.rs` lines 48-69).  A stored value
that does not decode as a catalog entry surfaces as the serde error the
`From` impl converts to `SerializationError`. -/
def Catalog.get_table (kv : KV) (name : String) :
    Except StorageError (Option TableSchema) :=
  match kvGet kv (Catalog.table_key name) with
  | none => .ok none
  | some (.schemaVal entryName cols) =>
    .ok (some
      { name := entryName
        columns := cols.map (fun nd =>
          { name := nd.1, data_type := Catalog.parse_data_type nd.2 }) })
  | some _ => .error (.serializationError "invalid catalog entry")

/-- `Catalog::list_tables` (`catalog/mod.rs` lines 71-82): scan the catalog
region, skipping values that do not decode. -/
def Catalog.list_tables (kv : KV) : List String :=
  (prefixScan kv catalogPrefixBytes).filterMap (fun e =>
    match e.2 with
    | .schemaVal entryName _ => some entryName
    | _ => none)

/-- `Catalog::drop_table` (`catalog/mod.rs` lines 84-88). -/
def Catalog.drop_table (kv : KV) (name : String) : KV :=
  kvDelete kv (Catalog.table_key name)

/-! ## The result cache

Modelled from the spec: the `bridge::SemanticCache` module is declared in
`lib.rs` but its source is not under `src/`.  Spec section 4.7 specifies a
mapping from query-text keys to serialized projected result sets with
operations `get`, `put` and `clear_all`, each of which may fail.  Failure of
each operation is modelled by a flag; a failing operation leaves the mapping
unchanged.  The serialized result set round-trips (spec section 4.3), so
entries are modelled as the row lists themselves. -/
structure SemanticCache where
  entries : List (String × List Row)
  getFails : Bool
  putFails : Bool
  clearFails : Bool
deriving DecidableEq, Repr

/-- Modelled from the spec: `SemanticCache::get` (spec section 4.7). -/
def SemanticCache.get (c : SemanticCache) (key : String) :
    Except String (Option (List Row)) :=
  if c.getFails then .error "cache get failed"
  else .ok ((c.entries.find? (fun e => e.1 = key)).map (·.2))

/-- Modelled from the spec: `SemanticCache::put` (spec section 4.7). -/
def SemanticCache.put (c : SemanticCache) (key : String) (rows : List Row) :
    Except String SemanticCache :=
  if c.putFails then .error "cache put failed"
  else .ok { c with entries := (key, rows) :: c.entries.filter (fun e => e.1 ≠ key) }

/-- Modelled from the spec: `SemanticCache::clear_cache` (spec section 4.7,
`clear_all`). -/
def SemanticCache.clear_cache (c : SemanticCache) : Except String SemanticCache :=
  if c.clearFails then .error "cache clear failed"
  else .ok { c with entries := [] }

/-! ## Statements and results (`executor/mod.rs` lines 762-790, spec section 6) -/

/-- Modelled from the spec: the parsed `Statement` union (spec section 6);
`Statement` in the missing `sql/types.rs`, pinned by the executor's match. -/
inductive Statement where
  | createTable (name : String) (columns : List Column)
  | dropTable (name : String) (if_exists : Bool)
  | showTables
  | describeTable (name : String)
  | insert (table : String) (columns : List String) (values : List (List Value))
  | select (table : String) (projection : List SelectItem)
      (whereClause : Option Expr) (orderBy : Option (List OrderByClause))
      (limit : Option Nat)
  | update (table : String) (assignments : List (String × Value))
      (whereClause : Option Expr)
  | delete (table : String) (whereClause : Option Expr)

/-- `ExecutionResult` (`executor/mod.rs` lines 762-790). -/
inductive ExecutionResult where
  | created (table : String)
  | tableList (tables : List String)
  | tableDescription (table : String) (columns : List Column)
  | inserted (table : String) (rows : Nat)
  | selected (columns : List String) (rows : List Row)
  | deleted (table : String) (rows : Nat)
  | updated (table : String) (rows : Nat)
deriving DecidableEq, Repr

/-- The executor-visible state: the KV store, the optional result cache, and
the timestamp source.  `clock` models the monotonically non-decreasing
nanosecond clock read by `generate_row_key`; each read returns the current
value and advances it (one admissible behaviour of the real clock). -/
structure DBState where
  kv : KV
  cache : Option SemanticCache
  clock : Nat
deriving DecidableEq

/-! ## The executor (`executor/mod.rs`)

`execute` is embedded as a function from a `DBState` and a `Statement` to
the successor state paired with the call's result.  Storage mutations are
threaded through the state in the order the source performs them, so an
early error returns the state exactly as mutated up to that point. -/

/-- `Executor::table_data_prefix` (`executor/mod.rs` lines 723-725). -/
def tableDataPrefixBytes (table : String) : Bytes :=
  strBytes ("data:" ++ table ++ ":")

/-- `Executor::generate_row_key` (`executor/mod.rs` lines 711-721): the
table's data prefix followed by `u128::to_be_bytes` of the nanosecond
timestamp — sixteen bytes, since `Duration::as_nanos` returns `u128`. -/
def generate_row_key (table : String) (timestampNanos : Nat) : Bytes :=
  tableDataPrefixBytes table ++ beBytes 16 (timestampNanos % 2 ^ 128)

/-- `Executor::invalidate_cache` (`executor/mod.rs` lines 440-447): clears
the cache if present, converting a cache failure into a `WriteError` that
propagates to the caller. -/
def invalidate_cache (st : DBState) : DBState × Except StorageError Unit :=
  match st.cache with
  | none => (st, .ok ())
  | some cache =>
    match cache.clear_cache with
    | .ok c' => ({ st with cache := some c' }, .ok ())
    | .error e => (st, .error (.writeError e))

/-- The `self.invalidate_cache()?; Ok(result)` tail shared by every mutating
branch of `execute`. -/
def thenInvalidate (st : DBState) (result : ExecutionResult) :
    DBState × Except StorageError ExecutionResult :=
  match invalidate_cache st with
  | (st', .ok _) => (st', .ok result)
  | (st', .error e) => (st', .error e)

/-- First name that repeats an earlier one, as the `HashSet::insert` scans in
`execute` (update, lines 328-337) and `prepare_insert_rows` (lines 523-531)
detect duplicates. -/
def firstDupAux (seen : List String) : List String → Option String
  | [] => none
  | x :: xs => if x ∈ seen then some x else firstDupAux (x :: seen) xs

/-- `Executor::build_projection` (`executor/mod.rs` lines 449-489), item
loop. -/
def buildProjectionAux (schema : TableSchema) :
    List SelectItem → Except StorageError (List Nat × List String)
  | [] => .ok ([], [])
  | item :: rest => do
    let head ← match item with
      | .wildcard =>
        .ok (List.range schema.columns.length, schema.columns.map (·.name))
      | .column name colAlias =>
        match schema.columns.findIdx? (fun c => c.name = name) with
        | some colIdx => .ok ([colIdx], [colAlias.getD name])
        | none => .error (.readError
            ("Column " ++ name ++ " not found in table " ++ schema.name))
    let tail ← buildProjectionAux schema rest
    .ok (head.1 ++ tail.1, head.2 ++ tail.2)

/-- `Executor::build_projection` (`executor/mod.rs` lines 449-489). -/
def build_projection (schema : TableSchema) (projection : List SelectItem) :
    Except StorageError (List Nat × List String) :=
  if projection.isEmpty then
    .error (.readError "SELECT projection cannot be empty")
  else buildProjectionAux schema projection

/-- Display rendering of the supported operators, as `build_cache_key`
embeds the predicate into the query text.  Modelled from the external
sqlparser Display impl; no theorem depends on the exact rendering. -/
def binOpToString : BinaryOperator → String
  | .and => "AND"
  | .or => "OR"
  | .gt => ">"
  | .lt => "<"
  | .gtEq => ">="
  | .ltEq => "<="
  | .eq => "="
  | .notEq => "<>"
  | .otherOp => "?"

/-- Display rendering of SQL literals (external sqlparser Display impl). -/
def sqlValueToString : SqlValue → String
  | .number n => n
  | .singleQuotedString s => "\x27" ++ s ++ "\x27"
  | .doubleQuotedString s => "\x22" ++ s ++ "\x22"
  | .boolean b => if b then "true" else "false"
  | .null => "NULL"
  | .otherVal => "?"

mutual

/-- Display rendering of predicate expressions (external sqlparser Display
impl); used only to build cache keys. -/
def exprToString : Expr → String
  | .binaryOp l op r => exprToString l ++ " " ++ binOpToString op ++ " " ++ exprToString r
  | .identifier n => n
  | .value v => sqlValueToString v
  | .like neg e p _ =>
    exprToString e ++ (if neg then " NOT LIKE " else " LIKE ") ++ exprToString p
  | .inList e list neg =>
    exprToString e ++ (if neg then " NOT IN (" else " IN (") ++
      exprListToString list ++ ")"
  | .between e neg lo hi =>
    exprToString e ++ (if neg then " NOT BETWEEN " else " BETWEEN ") ++
      exprToString lo ++ " AND " ++ exprToString hi
  | .otherExpr => "?"

/-- Comma-separated rendering of an expression list. -/
def exprListToString : List Expr → String
  | [] => ""
  | [e] => exprToString e
  | e :: rest => exprToString e ++ ", " ++ exprListToString rest

end

/-- `Executor::build_cache_key` (`executor/mod.rs` lines 664-709). -/
def build_cache_key (table : String) (projection : List SelectItem)
    (whereClause : Option Expr) (orderBy : Option (List OrderByClause))
    (limit : Option Nat) : String :=
  let projectionStr := String.intercalate ", " (projection.map (fun item =>
    match item with
    | .wildcard => "*"
    | .column name colAlias =>
      match colAlias with
      | some a => name ++ " AS " ++ a
      | none => name))
  let key := "SELECT " ++ projectionStr ++ " FROM " ++ table
  let key := match whereClause with
    | some expr => key ++ " WHERE " ++ exprToString expr
    | none => key
  let key := match orderBy with
    | some clauses => key ++ " ORDER BY " ++ String.intercalate ", "
        (clauses.map (fun c => c.column ++ (if c.ascending then " ASC" else " DESC")))
    | none => key
  match limit with
  | some n => key ++ " LIMIT " ++ toString n
  | none => key

/-- `Executor::prepare_insert_rows`, no-column-list branch (`executor/mod.rs`
lines 499-521). -/
def prepareFullRows (schema : TableSchema) (table : String) (rowIdx : Nat) :
    List (List Value) → Except StorageError (List Row)
  | [] => .ok []
  | rowValues :: rest =>
    if rowValues.length ≠ schema.columns.length then
      .error (.writeError
        ("INSERT row " ++ toString (rowIdx + 1) ++ " has " ++
          toString rowValues.length ++ " values but table " ++ table ++
          " expects " ++ toString schema.columns.length ++ " columns"))
    else do
      let coerced ← (schema.columns.zip rowValues).mapM
        (fun p => coerce_value p.1.name p.1.data_type p.2)
      let rows ← prepareFullRows schema table (rowIdx + 1) rest
      .ok (Row.mk coerced :: rows)

/-- `Executor::prepare_insert_rows`, explicit-column branch row loop
(`executor/mod.rs` lines 548-567). -/
def prepareMappedRows (schema : TableSchema) (columnsLen : Nat)
    (columnIndices : List Nat) (rowIdx : Nat) :
    List (List Value) → Except StorageError (List Row)
  | [] => .ok []
  | rowValues :: rest =>
    if rowValues.length ≠ columnsLen then
      .error (.writeError
        ("INSERT row " ++ toString (rowIdx + 1) ++ " has " ++
          toString rowValues.length ++ " values but " ++ toString columnsLen ++
          " columns were specified"))
    else do
      let row ← (columnIndices.zip rowValues).foldlM
        (fun acc p => do
          let column := schema.columns.getD p.1 { name := "", data_type := .null }
          let coercedValue ← coerce_value column.name column.data_type p.2
          pure (acc.set p.1 coercedValue))
        (List.replicate schema.columns.length Value.null)
      let rows ← prepareMappedRows schema columnsLen columnIndices (rowIdx + 1) rest
      .ok (Row.mk row :: rows)

/-- `Executor::prepare_insert_rows` (`executor/mod.rs` lines 491-570). -/
def prepare_insert_rows (schema : TableSchema) (table : String)
    (columns : List String) (values : List (List Value)) :
    Except StorageError (List Row) :=
  if columns.isEmpty then
    prepareFullRows schema table 0 values
  else
    match firstDupAux [] columns with
    | some c => .error (.writeError
        ("Duplicate column " ++ c ++ " in INSERT statement"))
    | none => do
      let columnIndices ← columns.mapM (fun column =>
        match schema.columns.findIdx? (fun c => c.name = column) with
        | some colIdx => .ok colIdx
        | none => Except.error (StorageError.writeError
            ("Column " ++ column ++ " not found in table " ++ table)))
      prepareMappedRows schema columns.length columnIndices 0 values

/-- Phase 1 of `DELETE` with a predicate (`executor/mod.rs` lines 262-282):
evaluate every scanned entry, skipping those that do not decode, collecting
the keys of matching rows; the first evaluator error aborts. -/
def collectDeleteKeys (evaluator : ExpressionEvaluator) (whereExpr : Expr) :
    KV → Except StorageError (List Bytes)
  | [] => .ok []
  | (key, value) :: rest =>
    match decodeRow value with
    | none => collectDeleteKeys evaluator whereExpr rest
    | some row =>
      match evaluator.evaluate whereExpr row.values with
      | .ok true => do
        let ks ← collectDeleteKeys evaluator whereExpr rest
        .ok (key :: ks)
      | .ok false => collectDeleteKeys evaluator whereExpr rest
      | .error e => .error (.readError
          ("WHERE clause evaluation failed on row: " ++ e ++
            ". No rows were deleted."))

/-- The assignment-resolution loop of `UPDATE` (`executor/mod.rs` lines
340-357): resolve each assigned column and coerce its value to the declared
type. -/
def buildAssignmentIndices (schema : TableSchema) (table : String) :
    List (String × Value) → Except StorageError (List (Nat × Value))
  | [] => .ok []
  | (colName, newValue) :: rest => do
    let colIdx ← match (schema.columns.map (·.name)).findIdx? (fun c => c = colName) with
      | some i => Except.ok i
      | none => Except.error (StorageError.readError
          ("Column " ++ colName ++ " not found in table " ++ table))
    let expectedType := (schema.columns.getD colIdx { name := "", data_type := .null }).data_type
    let coercedValue ← coerce_value colName expectedType newValue
    let tail ← buildAssignmentIndices schema table rest
    .ok ((colIdx, coercedValue) :: tail)

/-- The per-row assignment application of `UPDATE` (`executor/mod.rs` lines
384-395), with the bounds check that flags a short row as corruption. -/
def applyAssignments (assignmentIndices : List (Nat × Value)) (row : Row) :
    Except StorageError Row :=
  assignmentIndices.foldlM
    (fun r p =>
      if p.1 < r.values.length then
        .ok (Row.mk (r.values.set p.1 p.2))
      else
        .error (.readError
          ("Row data corrupted: column index " ++ toString p.1 ++
            " out of bounds (row has " ++ toString r.values.length ++ " values)")))
    row

/-- The collect phase of `UPDATE` (`executor/mod.rs` lines 363-399): decode
(skipping undecodable entries), filter by the predicate (an evaluator error
aborts), and build the updated rows. -/
def collectUpdates (evaluator : ExpressionEvaluator) (whereClause : Option Expr)
    (assignmentIndices : List (Nat × Value)) :
    KV → Except StorageError (List (Bytes × Row))
  | [] => .ok []
  | (key, value) :: rest =>
    match decodeRow value with
    | none => collectUpdates evaluator whereClause assignmentIndices rest
    | some row =>
      let shouldUpdate : Except StorageError Bool :=
        match whereClause with
        | some whereExpr =>
          match evaluator.evaluate whereExpr row.values with
          | .ok result => .ok result
          | .error e => .error (.readError
              ("WHERE clause evaluation failed: " ++ e ++ ". No rows were updated."))
        | none => .ok true
      match shouldUpdate with
      | .error e => .error e
      | .ok b =>
        if b then do
          let row' ← applyAssignments assignmentIndices row
          let tail ← collectUpdates evaluator whereClause assignmentIndices rest
          .ok ((key, row') :: tail)
        else collectUpdates evaluator whereClause assignmentIndices rest

/-- The `Statement::CreateTable` branch of `execute` (`executor/mod.rs`
lines 54-58). -/
def executeCreateTable (st : DBState) (name : String) (columns : List Column) :
    DBState × Except StorageError ExecutionResult :=
  match Catalog.create_table st.kv name columns with
  | .error e => (st, .error e)
  | .ok kv' => thenInvalidate { st with kv := kv' } (.created name)

/-- The `Statement::Insert` branch of `execute` (`executor/mod.rs` lines
59-83): each prepared row is written by an independent `set`, consuming one
clock tick for its key. -/
def executeInsert (st : DBState) (table : String) (columns : List String)
    (values : List (List Value)) : DBState × Except StorageError ExecutionResult :=
  match Catalog.get_table st.kv table with
  | .error e => (st, .error e)
  | .ok none => (st, .error (.readError ("Table " ++ table ++ " not found")))
  | .ok (some schema) =>
    match prepare_insert_rows schema table columns values with
    | .error e => (st, .error e)
    | .ok preparedRows =>
      let step := preparedRows.foldl
        (fun acc row =>
          (kvSet acc.1 (generate_row_key table acc.2) (.rowVal row), acc.2 + 1))
        (st.kv, st.clock)
      thenInvalidate { st with kv := step.1, clock := step.2 }
        (.inserted table values.length)

/-- The scan → decode → filter → order → limit pipeline of the `Select`
branch (`executor/mod.rs` lines 119-181): prefix-scan the table's data
region, keep the rows that decode, retain the rows the predicate accepts
(an evaluator error counts as a non-match, lines 132-136), stably sort per
order key, truncate to the limit. -/
def selectRows (kv : KV) (schema : TableSchema) (table : String)
    (whereClause : Option Expr) (orderBy : Option (List OrderByClause))
    (limit : Option Nat) : Except StorageError (List Row) :=
  let allRows := prefixScan kv (tableDataPrefixBytes table)
  let rows0 : List Row := allRows.filterMap (fun e => decodeRow e.2)
  let columnNames := schema.columns.map (·.name)
  let rows1 := match whereClause with
    | some whereExpr =>
      let evaluator : ExpressionEvaluator := ⟨columnNames⟩
      rows0.filter (fun row =>
        ((evaluator.evaluate whereExpr row.values).toOption).getD false)
    | none => rows0
  match (match orderBy with
    | some clauses => applyOrderBy columnNames table clauses rows1
    | none => .ok rows1) with
  | .error e => .error e
  | .ok rows2 =>
    .ok (match limit with
      | some limitCount => rows2.take limitCount
      | none => rows2)

/-- The `Statement::Select` branch of `execute` (`executor/mod.rs` lines
84-202). -/
def executeSelect (st : DBState) (table : String) (projection : List SelectItem)
    (whereClause : Option Expr) (orderBy : Option (List OrderByClause))
    (limit : Option Nat) : DBState × Except StorageError ExecutionResult :=
  match Catalog.get_table st.kv table with
  | .error e => (st, .error e)
  | .ok none => (st, .error (.readError ("Table " ++ table ++ " not found")))
  | .ok (some schema) =>
    match build_projection schema projection with
    | .error e => (st, .error e)
    | .ok proj =>
      let cacheKey := build_cache_key table projection whereClause orderBy limit
      let cacheHit : Option (List Row) :=
        match st.cache with
        | some cache =>
          match cache.get cacheKey with
          | .ok (some cachedRows) => some cachedRows
          | _ => none
        | none => none
      match cacheHit with
      | some cachedRows => (st, .ok (.selected proj.2 cachedRows))
      | none =>
        match selectRows st.kv schema table whereClause orderBy limit with
        | .error e => (st, .error e)
        | .ok rows3 =>
          let projectedRows := rows3.map (fun row =>
            Row.mk (proj.1.map (fun idx => row.values.getD idx .null)))
          let st1 := match st.cache with
            | some cache =>
              match cache.put cacheKey projectedRows with
              | .ok c' => { st with cache := some c' }
              | .error _ => st
            | none => st
          (st1, .ok (.selected proj.2 projectedRows))

/-- The `Statement::ShowTables` branch of `execute` (`executor/mod.rs`
lines 203-206). -/
def executeShowTables (st : DBState) : DBState × Except StorageError ExecutionResult :=
  (st, .ok (.tableList (Catalog.list_tables st.kv)))

/-- The `Statement::DescribeTable` branch of `execute` (`executor/mod.rs`
lines 207-216). -/
def executeDescribeTable (st : DBState) (name : String) :
    DBState × Except StorageError ExecutionResult :=
  match Catalog.get_table st.kv name with
  | .error e => (st, .error e)
  | .ok none => (st, .error (.readError ("Table " ++ name ++ " not found")))
  | .ok (some schema) => (st, .ok (.tableDescription name schema.columns))

/-- The `Statement::DropTable` branch of `execute` (`executor/mod.rs`
lines 217-243). -/
def executeDropTable (st : DBState) (name : String) (if_exists : Bool) :
    DBState × Except StorageError ExecutionResult :=
  match Catalog.get_table st.kv name with
  | .error e => (st, .error e)
  | .ok none =>
    if if_exists then (st, .ok (.deleted name 0))
    else (st, .error (.readError ("Table " ++ name ++ " not found")))
  | .ok (some _) =>
    let allRows := prefixScan st.kv (tableDataPrefixBytes name)
    let kv1 := allRows.foldl (fun acc e => kvDelete acc e.1) st.kv
    let kv2 := Catalog.drop_table kv1 name
    thenInvalidate { st with kv := kv2 } (.deleted name allRows.length)

/-- The `Statement::Delete` branch of `execute` (`executor/mod.rs` lines
244-313): with a predicate, two-phase collect then delete; without, delete
every scanned key. -/
def executeDelete (st : DBState) (table : String) (whereClause : Option Expr) :
    DBState × Except StorageError ExecutionResult :=
  match Catalog.get_table st.kv table with
  | .error e => (st, .error e)
  | .ok none => (st, .error (.readError ("Table " ++ table ++ " not found")))
  | .ok (some schema) =>
    match whereClause with
    | some whereExpr =>
      let columnNames := schema.columns.map (·.name)
      let evaluator : ExpressionEvaluator := ⟨columnNames⟩
      let allRows := prefixScan st.kv (tableDataPrefixBytes table)
      match collectDeleteKeys evaluator whereExpr allRows with
      | .error e => (st, .error e)
      | .ok keysToDelete =>
        let kv' := keysToDelete.foldl kvDelete st.kv
        thenInvalidate { st with kv := kv' } (.deleted table keysToDelete.length)
    | none =>
      let allRows := prefixScan st.kv (tableDataPrefixBytes table)
      let kv' := allRows.foldl (fun acc e => kvDelete acc e.1) st.kv
      thenInvalidate { st with kv := kv' } (.deleted table allRows.length)

/-- The `Statement::Update` branch of `execute` (`executor/mod.rs` lines
314-431): duplicate check, assignment coercion, two-phase collect, then one
`batch_set` (row serialization, which the model makes total, cannot fail). -/
def executeUpdate (st : DBState) (table : String)
    (assignments : List (String × Value)) (whereClause : Option Expr) :
    DBState × Except StorageError ExecutionResult :=
  match Catalog.get_table st.kv table with
  | .error e => (st, .error e)
  | .ok none => (st, .error (.readError ("Table " ++ table ++ " not found")))
  | .ok (some schema) =>
    match firstDupAux [] (assignments.map (·.1)) with
    | some colName =>
      (st, .error (.readError ("Duplicate column assignment for " ++ colName)))
    | none =>
      match buildAssignmentIndices schema table assignments with
      | .error e => (st, .error e)
      | .ok assignmentIndices =>
        let columnNames := schema.columns.map (·.name)
        let evaluator : ExpressionEvaluator := ⟨columnNames⟩
        let allRows := prefixScan st.kv (tableDataPrefixBytes table)
        match collectUpdates evaluator whereClause assignmentIndices allRows with
        | .error e => (st, .error e)
        | .ok updates =>
          let updatedCount := updates.length
          let batchOperations := updates.map (fun kr => (kr.1, StoredVal.rowVal kr.2))
          let kv' := if updates.isEmpty then st.kv else batch_set st.kv batchOperations
          thenInvalidate { st with kv := kv' } (.updated table updatedCount)

/-- `Executor::execute` (`executor/mod.rs` lines 50-438): dispatch over the
statement tag. -/
def execute (st : DBState) : Statement → DBState × Except StorageError ExecutionResult
  | .createTable name columns => executeCreateTable st name columns
  | .insert table columns values => executeInsert st table columns values
  | .select table projection whereClause orderBy limit =>
    executeSelect st table projection whereClause orderBy limit
  | .showTables => executeShowTables st
  | .describeTable name => executeDescribeTable st name
  | .dropTable name if_exists => executeDropTable st name if_exists
  | .delete table whereClause => executeDelete st table whereClause
  | .update table assignments whereClause =>
    executeUpdate st table assignments whereClause

/-! ## Derived notions used by the theorems -/

/-- The tag of a value (spec section 3: same-tag comparison). -/
def valueTag : Value → DataType
  | .integer _ => .integer
  | .float _ => .float
  | .text _ => .text
  | .boolean _ => .boolean
  | .null => .null

/-- The value of a row in one column, as the ORDER BY comparator reads it. -/
def keyVal (colIdx : Nat) (r : Row) : Value :=
  r.values.getD colIdx .null

/-- The integer content of a row's key column (0 for a non-integer value);
meaningful under the hypothesis that the column holds integers. -/
def keyInt (colIdx : Nat) (r : Row) : Int :=
  match keyVal colIdx r with
  | .integer n => n
  | _ => 0

/-! ## Helper lemmas: byte-lexicographic order and big-endian encodings -/

theorem beBytes_length (w : Nat) : ∀ v : Nat, (beBytes w v).length = w := by
  induction w with
  | zero => intro v; rfl
  | succ w ih => intro v; simp [beBytes, ih]

theorem bytesLt_append_same (p : Bytes) (a b : Bytes) :
    bytesLt (p ++ a) (p ++ b) = bytesLt a b := by
  induction p with
  | nil => rfl
  | cons x xs ih => simp [bytesLt, ih]

theorem bytesLt_append_of_lt {A B : Bytes} (xs ys : Bytes)
    (hlen : A.length = B.length) (h : bytesLt A B = true) :
    bytesLt (A ++ xs) (B ++ ys) = true := by
  induction A generalizing B with
  | nil =>
    cases B with
    | nil => simp [bytesLt] at h
    | cons b bs => simp at hlen
  | cons a as' ih =>
    cases B with
    | nil => simp at hlen
    | cons b bs =>
      simp only [bytesLt, Bool.or_eq_true, Bool.and_eq_true, decide_eq_true_eq] at h
      simp only [List.cons_append, bytesLt, Bool.or_eq_true, Bool.and_eq_true,
        decide_eq_true_eq]
      rcases h with h | ⟨rfl, h⟩
      · exact Or.inl h
      · exact Or.inr ⟨rfl, ih (by simpa using hlen) h⟩

theorem beBytes_lt {w v1 v2 : Nat} (h1 : v1 < v2) (h2 : v2 < 256 ^ w) :
    bytesLt (beBytes w v1) (beBytes w v2) = true := by
  induction w generalizing v1 v2 with
  | zero => simp at h2; omega
  | succ w ih =>
    simp only [beBytes]
    have hq : v1 / 256 ≤ v2 / 256 := Nat.div_le_div_right (Nat.le_of_lt h1)
    rcases Nat.lt_or_ge (v1 / 256) (v2 / 256) with hlt | hge
    · have hq2 : v2 / 256 < 256 ^ w := by
        have : v2 < 256 * 256 ^ w := by
          calc v2 < 256 ^ (w + 1) := h2
          _ = 256 * 256 ^ w := by ring
        exact Nat.div_lt_of_lt_mul this
      exact bytesLt_append_of_lt _ _
        (by rw [beBytes_length, beBytes_length]) (ih hlt hq2)
    · have heq : v1 / 256 = v2 / 256 := Nat.le_antisymm hq hge
      rw [heq, bytesLt_append_same]
      have hr : v1 % 256 < v2 % 256 := by
        have e1 := Nat.div_add_mod v1 256
        have e2 := Nat.div_add_mod v2 256
        omega
      simp [bytesLt, hr]

/-! ## Helper lemmas: the exact float operations -/

theorem ratTrunc_intCast (n : Int) : ratTrunc (n : ℚ) = n := by
  unfold ratTrunc
  by_cases h : (0 : ℚ) ≤ (n : ℚ)
  · rw [if_pos h, Int.floor_intCast]
  · rw [if_neg h, Int.ceil_intCast]

theorem ratFract_eq_zero_iff_den_one (q : ℚ) : ratFract q = 0 ↔ q.den = 1 := by
  constructor
  · intro h
    have hq : q = (ratTrunc q : ℚ) := by
      have := sub_eq_zero.mp h
      exact this
    rw [hq]
    exact Rat.den_intCast _
  · intro h
    rw [Rat.den_eq_one_iff] at h
    rw [← h]
    unfold ratFract
    rw [ratTrunc_intCast]
    ring

theorem f64AsI64_of_range {q : ℚ} (h1 : i64Min ≤ ratTrunc q) (h2 : ratTrunc q ≤ i64Max) :
    f64AsI64 q = ratTrunc q := by
  unfold f64AsI64
  rw [min_eq_right h2, max_eq_right h1]

/-- C8: for every coercion performed by INSERT or UPDATE, a Null input
coerces to Null regardless of the target declared type, and a Float input
coerces to an Integer target by truncation exactly when its fractional part
is zero, otherwise the coercion fails with a type-mismatch error naming the
column.  (The fractional part is zero exactly when the rational is an
integer; the range hypothesis keeps the saturating `as i64` cast equal to
plain truncation.) -/
theorem c8_coercion_null_and_float (column_name : String) (expected : DataType)
    (q : ℚ) (hrange : i64Min ≤ ratTrunc q ∧ ratTrunc q ≤ i64Max) :
    coerce_value column_name expected Value.null = .ok Value.null
    ∧ (ratFract q = 0 ↔ q.den = 1)
    ∧ (ratFract q = 0 →
        coerce_value column_name .integer (.float q) = .ok (.integer (ratTrunc q)))
    ∧ (ratFract q ≠ 0 →
        coerce_value column_name .integer (.float q) = .error (.writeError
          ("Type mismatch for column " ++ column_name ++ ": expected Integer, got Float"))) := by
  refine ⟨rfl, ratFract_eq_zero_iff_den_one q, ?_, ?_⟩
  · intro h
    simp only [coerce_value, h, if_pos]
    rw [f64AsI64_of_range hrange.1 hrange.2]
  · intro h
    simp [coerce_value, h]

/-- Witness for `c8_coercion_null_and_float` at the integer rational 5. -/
theorem c8_coercion_null_and_float_witness :
    (i64Min ≤ ratTrunc 5 ∧ ratTrunc 5 ≤ i64Max)
    ∧ (coerce_value "c" DataType.integer Value.null = .ok Value.null
      ∧ (ratFract 5 = 0 ↔ (5 : ℚ).den = 1)
      ∧ (ratFract 5 = 0 →
          coerce_value "c" .integer (.float 5) = .ok (.integer (ratTrunc 5)))
      ∧ (ratFract 5 ≠ 0 →
          coerce_value "c" .integer (.float 5) = .error (.writeError
            ("Type mismatch for column " ++ "c" ++ ": expected Integer, got Float")))) :=
  ⟨by decide, c8_coercion_null_and_float "c" .integer 5 (by decide)⟩

/-- C7, counterexample: the row-key suffix produced by `generate_row_key` is
not 8 bytes long — `Duration::as_nanos` is a `u128`, so `to_be_bytes` emits
16 bytes.  At table `t` and timestamp 0 the key has length 7 + 16 = 23, so
no 8-byte suffix decomposition exists. -/
theorem c7_counterexample :
    ¬ ∃ suffix : Bytes, suffix.length = 8 ∧
      generate_row_key "t" 0 = tableDataPrefixBytes "t" ++ suffix := by
  rintro ⟨s, hs, he⟩
  have h1 : (generate_row_key "t" 0).length = 23 := by decide
  have h2 : (tableDataPrefixBytes "t").length = 7 := by decide
  rw [he, List.length_append, h2, hs] at h1
  omega

/-- C7, amended: the row key is the table's data prefix `data:` ∥ table ∥ `:`
followed by the 16-byte big-endian encoding of the `u128` nanosecond
timestamp; with a fixed width and a non-decreasing timestamp source,
byte-lexicographic key order matches insertion order. -/
theorem c7_row_key_layout (table : String) (t1 t2 : Nat)
    (hle : t1 ≤ t2) (ht2 : t2 < 2 ^ 128) :
    generate_row_key table t1 = tableDataPrefixBytes table ++ beBytes 16 (t1 % 2 ^ 128)
    ∧ (beBytes 16 (t1 % 2 ^ 128)).length = 16
    ∧ (t1 < t2 → bytesLt (generate_row_key table t1) (generate_row_key table t2) = true)
    ∧ (t1 = t2 → generate_row_key table t1 = generate_row_key table t2) := by
  have ht1 : t1 < 2 ^ 128 := lt_of_le_of_lt hle ht2
  refine ⟨rfl, beBytes_length 16 _, ?_, fun h => by rw [h]⟩
  intro hlt
  unfold generate_row_key
  rw [bytesLt_append_same]
  rw [Nat.mod_eq_of_lt ht1, Nat.mod_eq_of_lt ht2]
  exact beBytes_lt hlt (by simpa using ht2)

/-- Witness for `c7_row_key_layout` at timestamps 1 and 2. -/
theorem c7_row_key_layout_witness :
    ((1 : Nat) ≤ 2 ∧ (2 : Nat) < 2 ^ 128)
    ∧ (generate_row_key "t" 1 = tableDataPrefixBytes "t" ++ beBytes 16 (1 % 2 ^ 128)
      ∧ (beBytes 16 (1 % 2 ^ 128)).length = 16
      ∧ ((1 : Nat) < 2 → bytesLt (generate_row_key "t" 1) (generate_row_key "t" 2) = true)
      ∧ ((1 : Nat) = 2 → generate_row_key "t" 1 = generate_row_key "t" 2)) :=
  ⟨⟨by decide, by norm_num⟩, c7_row_key_layout "t" 1 2 (by decide) (by norm_num)⟩

/-! ## IN-list evaluation (C10) -/

theorem inListFound_ok (self : ExpressionEvaluator) (v : Value)
    (rowValues : List Value) (list : List Expr)
    (hall : ∀ x ∈ list, ∃ w, self.extract_value x rowValues = .ok w) :
    ∃ b, self.inListFound v rowValues list = .ok b := by
  induction list with
  | nil => exact ⟨false, rfl⟩
  | cons x rest ih =>
    obtain ⟨w, hw⟩ := hall x (List.mem_cons_self x rest)
    by_cases hv : self.values_equal v w
    · exact ⟨true, by simp [ExpressionEvaluator.inListFound, hw, hv, Bind.bind, Except.bind]⟩
    · obtain ⟨b, hb⟩ := ih (fun y hy => hall y (List.mem_cons_of_mem x hy))
      exact ⟨b, by simp [ExpressionEvaluator.inListFound, hw, hv, hb, Bind.bind, Except.bind]⟩

/-- C10: an IN-list element whose tag differs from the left operand's tag is
treated as not equal rather than raising a type error, so IN never fails
with a cross-tag mismatch once its operands extract — unlike the binary
comparison, which errors on every cross-tag pair (and `Null = Null` is
true). -/
theorem c10_in_list_cross_tag (self : ExpressionEvaluator) (l r : Value)
    (e : Expr) (list : List Expr) (negated : Bool) (rowValues : List Value)
    (v : Value) (hx : self.extract_value e rowValues = .ok v)
    (hall : ∀ x ∈ list, ∃ w, self.extract_value x rowValues = .ok w) :
    (valueTag l ≠ valueTag r → self.values_equal l r = false)
    ∧ (∃ b, self.evaluate_in_list e list negated rowValues = .ok b)
    ∧ (valueTag l ≠ valueTag r →
        self.compare_values l .eq r = .error "Type mismatch in comparison")
    ∧ self.compare_values .null .eq .null = .ok true := by
  refine ⟨?_, ?_, ?_, rfl⟩
  · intro h
    cases l <;> cases r <;> simp_all [valueTag, ExpressionEvaluator.values_equal]
  · obtain ⟨b, hb⟩ := inListFound_ok self v rowValues list hall
    exact ⟨if negated then !b else b,
      by simp [ExpressionEvaluator.evaluate_in_list, hx, hb, Bind.bind, Except.bind]⟩
  · intro h
    cases l <;> cases r <;> simp_all [valueTag, ExpressionEvaluator.compare_values]

/-- Witness for `c10_in_list_cross_tag`: row value 1 against the mixed-tag
list `(2, 'z')`. -/
theorem c10_in_list_cross_tag_witness :
    ((⟨["c"]⟩ : ExpressionEvaluator).extract_value (.identifier "c")
        [Value.integer 1] = .ok (Value.integer 1)
      ∧ ∀ x ∈ [Expr.value (.number "2"), Expr.value (.singleQuotedString "z")],
          ∃ w, (⟨["c"]⟩ : ExpressionEvaluator).extract_value x [Value.integer 1] = .ok w)
    ∧ ((valueTag (.integer 1) ≠ valueTag (.text "a") →
        (⟨["c"]⟩ : ExpressionEvaluator).values_equal (.integer 1) (.text "a") = false)
      ∧ (∃ b, (⟨["c"]⟩ : ExpressionEvaluator).evaluate_in_list (.identifier "c")
          [Expr.value (.number "2"), Expr.value (.singleQuotedString "z")] false
          [Value.integer 1] = .ok b)
      ∧ (valueTag (.integer 1) ≠ valueTag (.text "a") →
          (⟨["c"]⟩ : ExpressionEvaluator).compare_values (.integer 1) .eq (.text "a") =
            .error "Type mismatch in comparison")
      ∧ (⟨["c"]⟩ : ExpressionEvaluator).compare_values .null .eq .null = .ok true) :=
  ⟨⟨by decide, by
      intro x hx
      fin_cases hx
      · exact ⟨Value.integer 2, by decide⟩
      · exact ⟨Value.text "z", by decide⟩⟩,
    c10_in_list_cross_tag ⟨["c"]⟩ (.integer 1) (.text "a") (.identifier "c")
      [Expr.value (.number "2"), Expr.value (.singleQuotedString "z")] false
      [Value.integer 1] (.integer 1) (by decide)
      (by
        intro x hx
        fin_cases hx
        · exact ⟨Value.integer 2, by decide⟩
        · exact ⟨Value.text "z", by decide⟩)⟩

/-! ## LIKE evaluation (C5) -/

/-- C5: the LIKE implementation rewrites `%` to `.*` and `_` to `.` and
passes every other character to the regex engine unescaped.  `%` and `_`
and the `Test%` examples behave as the claim states, but a regex
meta-character does not match itself literally: pattern `a.c` matches
`axc` (the unescaped `.` matches any code point), and pattern `Test(`
raises an invalid-pattern error instead of matching the literal text
`Test(`. -/
theorem c5_like_regex_passthrough :
    ((⟨["name"]⟩ : ExpressionEvaluator).evaluate_like false (.identifier "name")
        (.value (.singleQuotedString "a.c")) none [Value.text "axc"] = .ok true)
    ∧ ((⟨["name"]⟩ : ExpressionEvaluator).evaluate_like false (.identifier "name")
        (.value (.singleQuotedString "Test%")) none [Value.text "Test"] = .ok true)
    ∧ ((⟨["name"]⟩ : ExpressionEvaluator).evaluate_like false (.identifier "name")
        (.value (.singleQuotedString "Test%")) none [Value.text "TestABC"] = .ok true)
    ∧ ((⟨["name"]⟩ : ExpressionEvaluator).evaluate_like false (.identifier "name")
        (.value (.singleQuotedString "Test%")) none [Value.text "test"] = .ok false)
    ∧ ((⟨["name"]⟩ : ExpressionEvaluator).evaluate_like false (.identifier "name")
        (.value (.singleQuotedString "a_c")) none [Value.text "abc"] = .ok true)
    ∧ ((⟨["name"]⟩ : ExpressionEvaluator).evaluate_like false (.identifier "name")
        (.value (.singleQuotedString "a_c")) none [Value.text "abbc"] = .ok false)
    ∧ ((⟨["name"]⟩ : ExpressionEvaluator).evaluate_like false (.identifier "name")
        (.value (.singleQuotedString "Test(")) none [Value.text "Test("] =
          .error "Invalid LIKE pattern") := by
  refine ⟨?_, ?_, ?_, ?_, ?_, ?_, ?_⟩ <;> decide


theorem thenInvalidate_clearFails (st : DBState) (r : ExecutionResult)
    (c : SemanticCache) (hc : st.cache = some c) (h : c.clearFails = true) :
    (thenInvalidate st r).2 = .error (.writeError "cache clear failed") := by
  simp [thenInvalidate, invalidate_cache, hc, SemanticCache.clear_cache, h]

theorem executeSelect_cache_bypass (st : DBState) (c : SemanticCache)
    (table : String) (projection : List SelectItem) (whereClause : Option Expr)
    (orderBy : Option (List OrderByClause)) (limit : Option Nat)
    (hc : st.cache = some c)
    (hmiss : ∀ rows, c.get (build_cache_key table projection whereClause orderBy limit) ≠ .ok (some rows)) :
    (executeSelect st table projection whereClause orderBy limit).2 =
      (executeSelect { st with cache := none } table projection whereClause orderBy limit).2 := by
  simp only [executeSelect, hc]
  cases hgt : Catalog.get_table st.kv table with
  | error e => rfl
  | ok o =>
    cases o with
    | none => rfl
    | some schema =>
      dsimp only
      cases hbp : build_projection schema projection with
      | error e => rfl
      | ok proj =>
        have hhit : (match c.get (build_cache_key table projection whereClause orderBy limit) with
            | .ok (some cachedRows) => some cachedRows
            | _ => none) = (none : Option (List Row)) := by
          cases hg : c.get (build_cache_key table projection whereClause orderBy limit) with
          | error e => rfl
          | ok o =>
            cases o with
            | none => rfl
            | some rows => exact absurd hg (hmiss rows)
        simp only [hhit]
        cases hsr : selectRows st.kv schema table whereClause orderBy limit with
        | error e => rfl
        | ok rows3 => rfl

/-- C6, counterexample: with a result cache whose clear operation fails, a
CREATE TABLE statement returns a WriteError from `execute` even though the
catalog write itself succeeded — the cache failure does not degrade to a
miss but fails the statement. -/
theorem c6_counterexample :
    (execute ⟨[], some ⟨[], false, false, true⟩, 0⟩
        (.createTable "t" [⟨"id", .integer⟩])).2 =
      .error (.writeError "cache clear failed")
    ∧ kvGet (execute ⟨[], some ⟨[], false, false, true⟩, 0⟩
        (.createTable "t" [⟨"id", .integer⟩])).1.kv (Catalog.table_key "t") =
      some (.schemaVal "t" [("id", "Integer")]) := by
  refine ⟨?_, ?_⟩ <;> decide

/-- C6, amended: a failure of the Result Cache on get or put never causes
`execute` to return an error — the statement behaves as if the cache were
absent; but a failure of the cache clear performed after a mutation
propagates out of `execute` as a WriteError, so a mutating statement with a
clear-failing cache never returns Ok. -/
theorem c6_cache_failure_semantics (st : DBState) (c : SemanticCache)
    (table : String) (projection : List SelectItem) (whereClause : Option Expr)
    (orderBy : Option (List OrderByClause)) (limit : Option Nat) (wc : Option Expr)
    (hc : st.cache = some c) :
    (c.getFails = true →
      (execute st (.select table projection whereClause orderBy limit)).2 =
        (execute { st with cache := none } (.select table projection whereClause orderBy limit)).2)
    ∧ (c.getFails = false → c.entries = [] →
      (execute st (.select table projection whereClause orderBy limit)).2 =
        (execute { st with cache := none } (.select table projection whereClause orderBy limit)).2)
    ∧ (c.clearFails = true → ∀ r, (execute st (.delete table wc)).2 ≠ .ok r) := by
  refine ⟨?_, ?_, ?_⟩
  · intro hg
    exact executeSelect_cache_bypass st c table projection whereClause orderBy limit hc
      (fun rows h => by simp [SemanticCache.get, hg] at h)
  · intro hg he
    exact executeSelect_cache_bypass st c table projection whereClause orderBy limit hc
      (fun rows h => by simp [SemanticCache.get, hg, he] at h)
  · intro hclear r
    show (executeDelete st table wc).2 ≠ .ok r
    unfold executeDelete
    cases hgt : Catalog.get_table st.kv table with
    | error e => simp
    | ok o =>
      cases o with
      | none => simp
      | some schema =>
        dsimp only
        cases wc with
        | some we =>
          dsimp only
          cases hcd : collectDeleteKeys ⟨schema.columns.map (·.name)⟩ we
              (prefixScan st.kv (tableDataPrefixBytes table)) with
          | error e => simp
          | ok keys =>
            dsimp only
            rw [thenInvalidate_clearFails _ _ c (by simpa using hc) hclear]
            simp
        | none =>
          dsimp only
          rw [thenInvalidate_clearFails _ _ c (by simpa using hc) hclear]
          simp

/-- Witness for `c6_cache_failure_semantics`. -/
theorem c6_cache_failure_semantics_witness :
    ((⟨[], some ⟨[], false, true, true⟩, 0⟩ : DBState).cache = some ⟨[], false, true, true⟩)
    ∧ (((⟨[], false, true, true⟩ : SemanticCache).getFails = true →
        (execute ⟨[], some ⟨[], false, true, true⟩, 0⟩ (.select "t" [.wildcard] none none none)).2 =
          (execute ⟨[], none, 0⟩ (.select "t" [.wildcard] none none none)).2)
      ∧ ((⟨[], false, true, true⟩ : SemanticCache).getFails = false →
          (⟨[], false, true, true⟩ : SemanticCache).entries = [] →
        (execute ⟨[], some ⟨[], false, true, true⟩, 0⟩ (.select "t" [.wildcard] none none none)).2 =
          (execute ⟨[], none, 0⟩ (.select "t" [.wildcard] none none none)).2)
      ∧ ((⟨[], false, true, true⟩ : SemanticCache).clearFails = true →
          ∀ r, (execute ⟨[], some ⟨[], false, true, true⟩, 0⟩ (.delete "t" none)).2 ≠ .ok r)) :=
  ⟨rfl, c6_cache_failure_semantics ⟨[], some ⟨[], false, true, true⟩, 0⟩ ⟨[], false, true, true⟩
    "t" [.wildcard] none none none none rfl⟩



theorem executeSelect_kv (st : DBState) (table : String)
    (projection : List SelectItem) (whereClause : Option Expr)
    (orderBy : Option (List OrderByClause)) (limit : Option Nat) :
    (executeSelect st table projection whereClause orderBy limit).1.kv = st.kv := by
  unfold executeSelect
  cases hgt : Catalog.get_table st.kv table with
  | error e => rfl
  | ok o =>
    cases o with
    | none => rfl
    | some schema =>
      dsimp only
      cases hbp : build_projection schema projection with
      | error e => rfl
      | ok proj =>
        dsimp only
        cases hhit : (match st.cache with
          | some cache =>
            match cache.get (build_cache_key table projection whereClause orderBy limit) with
            | .ok (some cachedRows) => some cachedRows
            | _ => none
          | none => (none : Option (List Row))) with
        | some cachedRows => rfl
        | none =>
          dsimp only
          cases hsr : selectRows st.kv schema table whereClause orderBy limit with
          | error e => rfl
          | ok rows3 =>
            dsimp only
            cases st.cache with
            | none => rfl
            | some cache =>
              dsimp only
              cases cache.put (build_cache_key table projection whereClause orderBy limit)
                  (rows3.map (fun row => Row.mk (proj.1.map (fun idx => row.values.getD idx Value.null)))) with
              | ok c' => rfl
              | error e => rfl

/-- C9: executing a SELECT, SHOW TABLES, or DESCRIBE TABLE statement leaves
the KV store contents unchanged — every key (in particular every key under
the `catalog:` and `data:` prefixes) maps to the same value before and after
the call, whether the statement succeeds or returns an error. -/
theorem c9_read_statements_leave_kv (st : DBState) (stmt : Statement)
    (h : (∃ t p w o l, stmt = .select t p w o l) ∨ stmt = .showTables
      ∨ ∃ n, stmt = .describeTable n) :
    (execute st stmt).1.kv = st.kv
    ∧ ∀ key, kvGet (execute st stmt).1.kv key = kvGet st.kv key := by
  have hkv : (execute st stmt).1.kv = st.kv := by
    rcases h with ⟨t, p, w, o, l, rfl⟩ | rfl | ⟨n, rfl⟩
    · exact executeSelect_kv st t p w o l
    · rfl
    · show (executeDescribeTable st n).1.kv = st.kv
      unfold executeDescribeTable
      cases Catalog.get_table st.kv n with
      | error e => rfl
      | ok o => cases o with
        | none => rfl
        | some schema => rfl
  exact ⟨hkv, fun key => by rw [hkv]⟩

/-- Witness for `c9_read_statements_leave_kv` at SHOW TABLES. -/
theorem c9_read_statements_leave_kv_witness :
    ((∃ t p w o l, Statement.showTables = .select t p w o l)
      ∨ Statement.showTables = .showTables
      ∨ ∃ n, Statement.showTables = .describeTable n)
    ∧ ((execute ⟨[], none, 0⟩ .showTables).1.kv = ([] : KV)
      ∧ ∀ key, kvGet (execute ⟨[], none, 0⟩ .showTables).1.kv key = kvGet [] key) :=
  ⟨Or.inr (Or.inl rfl),
    c9_read_statements_leave_kv ⟨[], none, 0⟩ .showTables (Or.inr (Or.inl rfl))⟩



theorem collectDeleteKeys_error_of_eval_error (ev : ExpressionEvaluator)
    (we : Expr) (kvl : KV)
    (h : ∃ p ∈ kvl, ∃ row, decodeRow p.2 = some row ∧
        ∃ m, ev.evaluate we row.values = .error m) :
    ∃ e, collectDeleteKeys ev we kvl = .error e := by
  induction kvl with
  | nil => obtain ⟨p, hp, _⟩ := h; simp at hp
  | cons kv rest ih =>
    obtain ⟨k, v⟩ := kv
    simp only [collectDeleteKeys]
    cases hd : decodeRow v with
    | none =>
      refine ih ?_
      obtain ⟨p, hp, row, hrow, m, hm⟩ := h
      rcases List.mem_cons.mp hp with rfl | hmem
      · rw [hd] at hrow; exact absurd hrow (by simp)
      · exact ⟨p, hmem, row, hrow, m, hm⟩
    | some row =>
      dsimp only
      cases hev : ev.evaluate we row.values with
      | error m => exact ⟨_, rfl⟩
      | ok b =>
        have hrest : ∃ p ∈ rest, ∃ row, decodeRow p.2 = some row ∧
            ∃ m, ev.evaluate we row.values = .error m := by
          obtain ⟨p, hp, row', hrow', m, hm⟩ := h
          rcases List.mem_cons.mp hp with rfl | hmem
          · rw [hd] at hrow'
            obtain rfl : row = row' := by simpa using hrow'
            rw [hev] at hm; simp at hm
          · exact ⟨p, hmem, row', hrow', m, hm⟩
        obtain ⟨e, he⟩ := ih hrest
        cases b
        · exact ⟨e, he⟩
        · exact ⟨e, by simp [he, Bind.bind, Except.bind]⟩

theorem collectDeleteKeys_ok_imp_eval_ok (ev : ExpressionEvaluator)
    (we : Expr) (kvl : KV) (keys : List Bytes)
    (h : collectDeleteKeys ev we kvl = .ok keys) :
    ∀ p ∈ kvl, ∀ row, decodeRow p.2 = some row →
      ∃ b, ev.evaluate we row.values = .ok b := by
  induction kvl generalizing keys with
  | nil => intro p hp; simp at hp
  | cons kv rest ih =>
    obtain ⟨k, v⟩ := kv
    intro p hp row hrow
    simp only [collectDeleteKeys] at h
    rcases List.mem_cons.mp hp with rfl | hmem
    · simp only [hrow] at h
      cases hev : ev.evaluate we row.values with
      | error m => simp only [hev] at h; simp at h
      | ok b => exact ⟨b, rfl⟩
    · cases hd : decodeRow v with
      | none =>
        simp only [hd] at h
        exact ih keys h p hmem row hrow
      | some row' =>
        simp only [hd] at h
        cases hev : ev.evaluate we row'.values with
        | error m => simp only [hev] at h; simp at h
        | ok b =>
          simp only [hev] at h
          cases b with
          | false => exact ih keys h p hmem row hrow
          | true =>
            simp only [Bind.bind, Except.bind] at h
            cases hrest : collectDeleteKeys ev we rest with
            | error e => simp only [hrest] at h; simp at h
            | ok ks => exact ih ks hrest p hmem row hrow



/-- C2: for every DELETE with a predicate, if the predicate evaluator
errors on any scanned decodable row during the collect phase, the executor
returns an error and the state (hence every row) is unchanged; and a
successful DELETE implies every scanned decodable row was evaluated without
error, so deletions happen only after every row evaluated successfully. -/
theorem c2_delete_two_phase (st : DBState) (table : String) (whereExpr : Expr)
    (schema : TableSchema)
    (hschema : Catalog.get_table st.kv table = .ok (some schema)) :
    ((∃ p ∈ prefixScan st.kv (tableDataPrefixBytes table), ∃ row,
        decodeRow p.2 = some row ∧
        ∃ m, (⟨schema.columns.map (·.name)⟩ : ExpressionEvaluator).evaluate
          whereExpr row.values = .error m) →
      ∃ e, execute st (.delete table (some whereExpr)) = (st, .error e))
    ∧ (∀ st' r, execute st (.delete table (some whereExpr)) = (st', .ok r) →
        ∀ p ∈ prefixScan st.kv (tableDataPrefixBytes table), ∀ row,
          decodeRow p.2 = some row →
          ∃ b, (⟨schema.columns.map (·.name)⟩ : ExpressionEvaluator).evaluate
            whereExpr row.values = .ok b) := by
  constructor
  · intro h
    obtain ⟨e, he⟩ := collectDeleteKeys_error_of_eval_error
      ⟨schema.columns.map (·.name)⟩ whereExpr
      (prefixScan st.kv (tableDataPrefixBytes table)) h
    refine ⟨e, ?_⟩
    show executeDelete st table (some whereExpr) = (st, .error e)
    simp only [executeDelete, hschema]
    simp only [he]
  · intro st' r heq p hp row hrow
    cases hcd : collectDeleteKeys ⟨schema.columns.map (·.name)⟩ whereExpr
        (prefixScan st.kv (tableDataPrefixBytes table)) with
    | error e =>
      exfalso
      have : executeDelete st table (some whereExpr) = (st, .error e) := by
        simp only [executeDelete, hschema]
        simp only [hcd]
      rw [show execute st (.delete table (some whereExpr)) =
        executeDelete st table (some whereExpr) from rfl, this] at heq
      simp [Prod.ext_iff] at heq
    | ok ks =>
      exact collectDeleteKeys_ok_imp_eval_ok _ _ _ ks hcd p hp row hrow

/-- Witness state for C2: table `t` with one integer column `id` and one
decodable stored row `(1)`. -/
def c2State : DBState :=
  ⟨[(Catalog.table_key "t", .schemaVal "t" [("id", "Integer")]),
    (tableDataPrefixBytes "t" ++ [0], .rowVal ⟨[.integer 1]⟩)], none, 0⟩

/-- Witness predicate for C2: `id = 'x'`, whose cross-tag comparison makes
the evaluator error on the stored integer row. -/
def c2Pred : Expr :=
  .binaryOp (.identifier "id") .eq (.value (.singleQuotedString "x"))

/-- Witness for `c2_delete_two_phase`: the evaluator errors on the stored
row, and the statement errors leaving the state untouched. -/
theorem c2_delete_two_phase_witness :
    (Catalog.get_table c2State.kv "t" = .ok (some ⟨"t", [⟨"id", .integer⟩]⟩))
    ∧ (((∃ p ∈ prefixScan c2State.kv (tableDataPrefixBytes "t"), ∃ row,
        decodeRow p.2 = some row ∧
        ∃ m, (⟨(⟨"t", [⟨"id", .integer⟩]⟩ : TableSchema).columns.map (·.name)⟩ : ExpressionEvaluator).evaluate
          c2Pred row.values = .error m) →
      ∃ e, execute c2State (.delete "t" (some c2Pred)) = (c2State, .error e))
    ∧ (∀ st' r, execute c2State (.delete "t" (some c2Pred)) = (st', .ok r) →
        ∀ p ∈ prefixScan c2State.kv (tableDataPrefixBytes "t"), ∀ row,
          decodeRow p.2 = some row →
          ∃ b, (⟨(⟨"t", [⟨"id", .integer⟩]⟩ : TableSchema).columns.map (·.name)⟩ : ExpressionEvaluator).evaluate
            c2Pred row.values = .ok b)) :=
  ⟨by decide, c2_delete_two_phase c2State "t" c2Pred ⟨"t", [⟨"id", .integer⟩]⟩ (by decide)⟩


theorem collectDeleteKeys_ok_of_eval_ok (ev : ExpressionEvaluator)
    (we : Expr) (kvl : KV)
    (h : ∀ p ∈ kvl, ∀ row, decodeRow p.2 = some row →
        ∃ b, ev.evaluate we row.values = .ok b) :
    ∃ keys, collectDeleteKeys ev we kvl = .ok keys := by
  induction kvl with
  | nil => exact ⟨[], rfl⟩
  | cons kv rest ih =>
    obtain ⟨k, v⟩ := kv
    have hrest := fun p hp => h p (List.mem_cons_of_mem _ hp)
    obtain ⟨keys, hkeys⟩ := ih hrest
    simp only [collectDeleteKeys]
    cases hd : decodeRow v with
    | none => exact ⟨keys, hkeys⟩
    | some row =>
      dsimp only
      obtain ⟨b, hb⟩ := h (k, v) (List.mem_cons_self _ _) row hd
      rw [hb]
      cases b with
      | false => exact ⟨keys, hkeys⟩
      | true => exact ⟨k :: keys, by simp [hkeys, Bind.bind, Except.bind]⟩

theorem collectDeleteKeys_mem_decodable (ev : ExpressionEvaluator)
    (we : Expr) (kvl : KV) (keys : List Bytes)
    (h : collectDeleteKeys ev we kvl = .ok keys) :
    ∀ k ∈ keys, ∃ v row, ((k, v) ∈ kvl) ∧ decodeRow v = some row := by
  induction kvl generalizing keys with
  | nil =>
    intro k hk
    simp only [collectDeleteKeys] at h
    obtain rfl : keys = [] := by simpa using h.symm
    simp at hk
  | cons kv rest ih =>
    obtain ⟨k0, v0⟩ := kv
    intro k hk
    simp only [collectDeleteKeys] at h
    cases hd : decodeRow v0 with
    | none =>
      simp only [hd] at h
      obtain ⟨v, row, hmem, hrow⟩ := ih keys h k hk
      exact ⟨v, row, List.mem_cons_of_mem _ hmem, hrow⟩
    | some row =>
      simp only [hd] at h
      cases hev : ev.evaluate we row.values with
      | error m => simp only [hev] at h; simp at h
      | ok b =>
        simp only [hev] at h
        cases b with
        | false =>
          obtain ⟨v, row', hmem, hrow'⟩ := ih keys h k hk
          exact ⟨v, row', List.mem_cons_of_mem _ hmem, hrow'⟩
        | true =>
          simp only [Bind.bind, Except.bind] at h
          cases hrest : collectDeleteKeys ev we rest with
          | error e => simp only [hrest] at h; simp at h
          | ok ks =>
            simp only [hrest] at h
            obtain rfl : k0 :: ks = keys := by simpa using h
            rcases List.mem_cons.mp hk with rfl | hmem
            · exact ⟨v0, row, List.mem_cons_self _ _, hd⟩
            · obtain ⟨v, row', hmem', hrow'⟩ := ih ks hrest k hmem
              exact ⟨v, row', List.mem_cons_of_mem _ hmem', hrow'⟩

theorem applyAssignments_ok (ai : List (Nat × Value)) (row : Row)
    (h : ∀ q ∈ ai, q.1 < row.values.length) :
    ∃ row', applyAssignments ai row = .ok row'
      ∧ row'.values.length = row.values.length := by
  induction ai generalizing row with
  | nil => exact ⟨row, rfl, rfl⟩
  | cons q rest ih =>
    obtain ⟨i, v⟩ := q
    have hi : i < row.values.length := h (i, v) (List.mem_cons_self _ _)
    have hset : (Row.mk (row.values.set i v)).values.length = row.values.length := by
      simp
    obtain ⟨row', hrow', hlen⟩ := ih (Row.mk (row.values.set i v))
      (fun q hq => by rw [hset]; exact h q (List.mem_cons_of_mem _ hq))
    refine ⟨row', ?_, by rw [hlen, hset]⟩
    simp only [applyAssignments] at hrow' ⊢
    simp only [List.foldlM, hi, if_pos, Bind.bind, Except.bind]
    exact hrow'

theorem collectUpdates_ok_of (ev : ExpressionEvaluator) (wc : Option Expr)
    (ai : List (Nat × Value)) (kvl : KV)
    (h : ∀ p ∈ kvl, ∀ row, decodeRow p.2 = some row →
        (∀ we2, wc = some we2 → ∃ b, ev.evaluate we2 row.values = .ok b)
        ∧ ∀ q ∈ ai, q.1 < row.values.length) :
    ∃ updates, collectUpdates ev wc ai kvl = .ok updates
      ∧ ∀ u ∈ updates, ∃ v row, ((u.1, v) ∈ kvl) ∧ decodeRow v = some row := by
  induction kvl with
  | nil => exact ⟨[], rfl, by simp⟩
  | cons kv rest ih =>
    obtain ⟨k, v⟩ := kv
    obtain ⟨updates, hupd, hmem⟩ := ih (fun p hp => h p (List.mem_cons_of_mem _ hp))
    have hweaken : ∀ u ∈ updates, ∃ v' row, ((u.1, v') ∈ (k, v) :: rest) ∧
        decodeRow v' = some row := fun u hu =>
      (hmem u hu).imp (fun v' hv' => hv'.imp (fun row hr =>
        ⟨List.mem_cons_of_mem _ hr.1, hr.2⟩))
    simp only [collectUpdates]
    cases hd : decodeRow v with
    | none => exact ⟨updates, hupd, hweaken⟩
    | some row =>
      dsimp only
      have hrow := h (k, v) (List.mem_cons_self _ _) row hd
      have happly := applyAssignments_ok ai row hrow.2
      obtain ⟨row', hrow', _⟩ := happly
      cases hwc : wc with
      | none =>
        dsimp only
        rw [hwc] at hupd
        refine ⟨(k, row') :: updates, ?_, ?_⟩
        · simp [hrow', hupd, Bind.bind, Except.bind]
        · intro u hu
          rcases List.mem_cons.mp hu with rfl | hu'
          · exact ⟨v, row, List.mem_cons_self _ _, hd⟩
          · exact hweaken u hu'
      | some we2 =>
        obtain ⟨b, hb⟩ := hrow.1 we2 hwc
        dsimp only
        rw [hwc] at hupd
        simp only [hb]
        cases b with
        | false => exact ⟨updates, hupd, hweaken⟩
        | true =>
          refine ⟨(k, row') :: updates, ?_, ?_⟩
          · simp [hrow', hupd, Bind.bind, Except.bind]
          · intro u hu
            rcases List.mem_cons.mp hu with rfl | hu'
            · exact ⟨v, row, List.mem_cons_self _ _, hd⟩
            · exact hweaken u hu'

/-- State for the C3 counterexample and witness: table `t` with one integer

column and one stored value that does not decode as a row. -/
def c3State : DBState :=
  ⟨[(Catalog.table_key "t", .schemaVal "t" [("id", "Integer")]),
    (tableDataPrefixBytes "t" ++ [0], .badVal)], none, 0⟩

/-- Predicate `id = 1` used by the C3 counterexample and witness. -/
def c3Pred : Expr :=
  .binaryOp (.identifier "id") .eq (.value (.number "1"))

/-- C3, counterexample: a DELETE with a predicate over a table whose only
stored value fails to decode succeeds with zero deletions — the undecodable
row is silently skipped, not a fatal error as the claim requires. -/
theorem c3_counterexample :
    execute c3State (.delete "t" (some c3Pred)) = (c3State, .ok (.deleted "t" 0)) := by
  decide

/-- C3, amended: a row value that fails to decode is skipped without
failing the statement in all three scans — SELECT returns the decodable
rows, and the UPDATE/DELETE collect phases ignore undecodable entries (so
the operation never commits to such a row and never fails because of one):
every deleted key and every updated key holds a value that decodes. -/
theorem c3_decode_failures_skipped (st : DBState) (table : String)
    (schema : TableSchema) (we : Expr) (wc : Option Expr)
    (ai : List (Nat × Value))
    (hschema : Catalog.get_table st.kv table = .ok (some schema))
    (hcache : st.cache = none) :
    (∃ rows, (execute st (.select table [.wildcard] none none none)).2 =
        .ok (.selected (schema.columns.map (·.name)) rows)
      ∧ rows.length = ((prefixScan st.kv (tableDataPrefixBytes table)).filterMap
          (fun p => decodeRow p.2)).length)
    ∧ ((∀ p ∈ prefixScan st.kv (tableDataPrefixBytes table), ∀ row,
          decodeRow p.2 = some row →
          ∃ b, (⟨schema.columns.map (·.name)⟩ : ExpressionEvaluator).evaluate
            we row.values = .ok b) →
        ∃ keys, collectDeleteKeys ⟨schema.columns.map (·.name)⟩ we
            (prefixScan st.kv (tableDataPrefixBytes table)) = .ok keys
          ∧ (∀ k ∈ keys, ∃ v row,
              ((k, v) ∈ prefixScan st.kv (tableDataPrefixBytes table))
              ∧ decodeRow v = some row)
          ∧ (execute st (.delete table (some we))).2 = .ok (.deleted table keys.length))
    ∧ ((∀ p ∈ prefixScan st.kv (tableDataPrefixBytes table), ∀ row,
          decodeRow p.2 = some row →
          (∀ we2, wc = some we2 →
            ∃ b, (⟨schema.columns.map (·.name)⟩ : ExpressionEvaluator).evaluate
              we2 row.values = .ok b)
          ∧ ∀ q ∈ ai, q.1 < row.values.length) →
        ∃ updates, collectUpdates ⟨schema.columns.map (·.name)⟩ wc ai
            (prefixScan st.kv (tableDataPrefixBytes table)) = .ok updates
          ∧ ∀ u ∈ updates, ∃ v row,
              ((u.1, v) ∈ prefixScan st.kv (tableDataPrefixBytes table))
              ∧ decodeRow v = some row) := by
  refine ⟨?_, ?_, ?_⟩
  · have hbp : build_projection schema [SelectItem.wildcard] =
        .ok (List.range schema.columns.length, schema.columns.map (·.name)) := by
      simp [build_projection, buildProjectionAux, Bind.bind, Except.bind]
    refine ⟨((prefixScan st.kv (tableDataPrefixBytes table)).filterMap
        (fun p => decodeRow p.2)).map
        (fun row => Row.mk ((List.range schema.columns.length).map
          (fun idx => row.values.getD idx .null))), ?_, by simp⟩
    show (executeSelect st table [.wildcard] none none none).2 = _
    simp only [executeSelect, hschema, hbp, hcache]
    rfl
  · intro h
    obtain ⟨keys, hkeys⟩ := collectDeleteKeys_ok_of_eval_ok
      ⟨schema.columns.map (·.name)⟩ we _ h
    refine ⟨keys, hkeys,
      collectDeleteKeys_mem_decodable _ _ _ _ hkeys, ?_⟩
    show (executeDelete st table (some we)).2 = _
    simp only [executeDelete, hschema, hkeys]
    simp [thenInvalidate, invalidate_cache, hcache]
  · intro h
    exact collectUpdates_ok_of ⟨schema.columns.map (·.name)⟩ wc ai _ h

/-- Witness for `c3_decode_failures_skipped` at `c3State`. -/
theorem c3_decode_failures_skipped_witness :
    (Catalog.get_table c3State.kv "t" =
        .ok (some ⟨"t", [⟨"id", .integer⟩]⟩) ∧ c3State.cache = none)
    ∧ ((∃ rows, (execute c3State (.select "t" [.wildcard] none none none)).2 =
        .ok (.selected ((⟨"t", [⟨"id", .integer⟩]⟩ : TableSchema).columns.map (·.name)) rows)
      ∧ rows.length = ((prefixScan c3State.kv (tableDataPrefixBytes "t")).filterMap
          (fun p => decodeRow p.2)).length)
    ∧ ((∀ p ∈ prefixScan c3State.kv (tableDataPrefixBytes "t"), ∀ row,
          decodeRow p.2 = some row →
          ∃ b, (⟨(⟨"t", [⟨"id", .integer⟩]⟩ : TableSchema).columns.map (·.name)⟩ : ExpressionEvaluator).evaluate
            c3Pred row.values = .ok b) →
        ∃ keys, collectDeleteKeys ⟨(⟨"t", [⟨"id", .integer⟩]⟩ : TableSchema).columns.map (·.name)⟩ c3Pred
            (prefixScan c3State.kv (tableDataPrefixBytes "t")) = .ok keys
          ∧ (∀ k ∈ keys, ∃ v row,
              ((k, v) ∈ prefixScan c3State.kv (tableDataPrefixBytes "t"))
              ∧ decodeRow v = some row)
          ∧ (execute c3State (.delete "t" (some c3Pred))).2 = .ok (.deleted "t" keys.length))
    ∧ ((∀ p ∈ prefixScan c3State.kv (tableDataPrefixBytes "t"), ∀ row,
          decodeRow p.2 = some row →
          (∀ we2, (none : Option Expr) = some we2 →
            ∃ b, (⟨(⟨"t", [⟨"id", .integer⟩]⟩ : TableSchema).columns.map (·.name)⟩ : ExpressionEvaluator).evaluate
              we2 row.values = .ok b)
          ∧ ∀ q ∈ [((0 : Nat), Value.integer 5)], q.1 < row.values.length) →
        ∃ updates, collectUpdates ⟨(⟨"t", [⟨"id", .integer⟩]⟩ : TableSchema).columns.map (·.name)⟩ none [((0 : Nat), Value.integer 5)]
            (prefixScan c3State.kv (tableDataPrefixBytes "t")) = .ok updates
          ∧ ∀ u ∈ updates, ∃ v row,
              ((u.1, v) ∈ prefixScan c3State.kv (tableDataPrefixBytes "t"))
              ∧ decodeRow v = some row)) :=
  ⟨⟨by decide, rfl⟩,
    c3_decode_failures_skipped c3State "t" ⟨"t", [⟨"id", .integer⟩]⟩ c3Pred none
      [((0 : Nat), Value.integer 5)] (by decide) rfl⟩


theorem coerce_value_error_shape (c : String) (t : DataType) (v : Value)
    (e : StorageError) (ht : t ≠ .null) (h : coerce_value c t v = .error e) :
    ∃ suffix, e = .writeError ("Type mismatch for column " ++ c ++ suffix) := by
  cases t with
  | null => exact absurd rfl ht
  | text => cases v <;> simp [coerce_value] at h
  | integer =>
    cases v with
    | integer i => simp [coerce_value] at h
    | null => simp [coerce_value] at h
    | boolean b => simp [coerce_value] at h
    | float f =>
      simp only [coerce_value] at h
      split at h
      · simp at h
      · exact ⟨": expected Integer, got Float", by
          simpa using h.symm⟩
    | text s =>
      simp only [coerce_value] at h
      cases hp : parseI64 s with
      | some i => simp [hp] at h
      | none =>
        simp only [hp] at h
        exact ⟨": expected Integer, got Text", by simpa using h.symm⟩
  | float =>
    cases v with
    | float f => simp [coerce_value] at h
    | null => simp [coerce_value] at h
    | boolean b => simp [coerce_value] at h
    | integer i => simp [coerce_value] at h
    | text s =>
      simp only [coerce_value] at h
      cases hp : parseF64 s with
      | some f => simp [hp] at h
      | none =>
        simp only [hp] at h
        exact ⟨": expected Float, got Text", by simpa using h.symm⟩
  | boolean =>
    cases v with
    | boolean b => simp [coerce_value] at h
    | null => simp [coerce_value] at h
    | integer i =>
      simp only [coerce_value] at h
      split at h
      · simp at h
      · split at h
        · simp at h
        · exact ⟨": expected Boolean, got Integer", by simpa using h.symm⟩
    | float f =>
      simp only [coerce_value] at h
      split at h
      · simp at h
      · split at h
        · simp at h
        · exact ⟨": expected Boolean, got Float", by simpa using h.symm⟩
    | text s =>
      simp only [coerce_value] at h
      split at h
      · simp at h
      · split at h
        · simp at h
        · exact ⟨": expected Boolean, got Text", by simpa using h.symm⟩



theorem buildAssignmentIndices_error_shape (schema : TableSchema) (table : String)
    (assignments : List (String × Value))
    (hnonull : ∀ col ∈ schema.columns, col.data_type ≠ .null)
    (hcols : ∀ a ∈ assignments, ∃ i,
        (schema.columns.map (·.name)).findIdx? (fun n => n = a.1) = some i)
    (hfail : ∃ a ∈ assignments, ∃ i e,
        (schema.columns.map (·.name)).findIdx? (fun n => n = a.1) = some i
        ∧ coerce_value a.1 (schema.columns.getD i ⟨"", .null⟩).data_type a.2 = .error e) :
    ∃ cName suffix, buildAssignmentIndices schema table assignments =
        .error (.writeError ("Type mismatch for column " ++ cName ++ suffix))
      ∧ ∃ v, (cName, v) ∈ assignments := by
  induction assignments with
  | nil => obtain ⟨a, ha, _⟩ := hfail; simp at ha
  | cons a rest ih =>
    obtain ⟨cn, nv⟩ := a
    obtain ⟨i, hi⟩ := hcols (cn, nv) (List.mem_cons_self _ _)
    have hlt : i < schema.columns.length := by
      have := (List.findIdx?_eq_some_iff_findIdx_eq.mp hi).1
      simpa using this
    have hne : (schema.columns.getD i ⟨"", .null⟩).data_type ≠ .null := by
      apply hnonull
      rw [List.getD_eq_getElem _ _ hlt]
      exact List.getElem_mem hlt
    simp only [buildAssignmentIndices, hi]
    cases hc : coerce_value cn (schema.columns.getD i ⟨"", .null⟩).data_type nv with
    | error e =>
      obtain ⟨suffix, rfl⟩ := coerce_value_error_shape cn _ nv e hne hc
      refine ⟨cn, suffix, ?_, nv, List.mem_cons_self _ _⟩
      rw [List.getD_eq_getElem?_getD] at hc
      simp [hc, Bind.bind, Except.bind]
    | ok cv =>
      have hfail' : ∃ a ∈ rest, ∃ i e,
          (schema.columns.map (·.name)).findIdx? (fun n => n = a.1) = some i
          ∧ coerce_value a.1 (schema.columns.getD i ⟨"", .null⟩).data_type a.2 = .error e := by
        obtain ⟨a, ha, i', e', hi', hc'⟩ := hfail
        rcases List.mem_cons.mp ha with rfl | hmem
        · obtain rfl : i = i' := by rw [hi] at hi'; simpa using hi'
          rw [hc] at hc'; simp at hc'
        · exact ⟨a, hmem, i', e', hi', hc'⟩
      obtain ⟨cName, suffix, herr, v, hv⟩ :=
        ih (fun a ha => hcols a (List.mem_cons_of_mem _ ha)) hfail'
      refine ⟨cName, suffix, ?_, v, List.mem_cons_of_mem _ hv⟩
      rw [List.getD_eq_getElem?_getD] at hc
      simp [hc, herr, Bind.bind, Except.bind]

theorem thenInvalidate_kv (st : DBState) (r : ExecutionResult) :
    (thenInvalidate st r).1.kv = st.kv := by
  unfold thenInvalidate invalidate_cache
  cases st.cache with
  | none => rfl
  | some c =>
    dsimp only
    cases c.clear_cache with
    | ok c' => rfl
    | error e => rfl



/-- C1: for every UPDATE whose assignment columns exist, are not
duplicated, and target non-Null declared types, a failing coercion makes
the executor return the type-mismatch WriteError naming the assigned
column with the state (hence every stored row) unchanged; and when the
coercions and all predicate evaluations succeed, the new store is exactly
one `batch_set` of the collected updated rows over the old store. -/
theorem c1_update_coercion_and_batch (st : DBState) (table : String)
    (assignments : List (String × Value)) (wc : Option Expr)
    (schema : TableSchema)
    (hschema : Catalog.get_table st.kv table = .ok (some schema)) :
    ((firstDupAux [] (assignments.map (·.1)) = none) →
      (∀ col ∈ schema.columns, col.data_type ≠ .null) →
      (∀ a ∈ assignments, ∃ i,
        (schema.columns.map (·.name)).findIdx? (fun n => n = a.1) = some i) →
      (∃ a ∈ assignments, ∃ i e,
        (schema.columns.map (·.name)).findIdx? (fun n => n = a.1) = some i
        ∧ coerce_value a.1 (schema.columns.getD i ⟨"", .null⟩).data_type a.2 = .error e) →
      ∃ cName suffix, execute st (.update table assignments wc) =
          (st, .error (.writeError ("Type mismatch for column " ++ cName ++ suffix)))
        ∧ ∃ v, (cName, v) ∈ assignments)
    ∧ (∀ ai updates,
        firstDupAux [] (assignments.map (·.1)) = none →
        buildAssignmentIndices schema table assignments = .ok ai →
        collectUpdates ⟨schema.columns.map (·.name)⟩ wc ai
          (prefixScan st.kv (tableDataPrefixBytes table)) = .ok updates →
        (execute st (.update table assignments wc)).1.kv =
          batch_set st.kv (updates.map (fun kr => (kr.1, StoredVal.rowVal kr.2)))
        ∧ (st.cache = none →
            (execute st (.update table assignments wc)).2 =
              .ok (.updated table updates.length))) := by
  constructor
  · intro hdup hnonull hcols hfail
    obtain ⟨cName, suffix, herr, v, hv⟩ :=
      buildAssignmentIndices_error_shape schema table assignments hnonull hcols hfail
    refine ⟨cName, suffix, ?_, v, hv⟩
    show executeUpdate st table assignments wc = _
    simp only [executeUpdate, hschema, hdup, herr]
  · intro ai updates hdup hai hcol
    constructor
    · show (executeUpdate st table assignments wc).1.kv = _
      simp only [executeUpdate, hschema, hdup, hai, hcol]
      rw [thenInvalidate_kv]
      cases updates with
      | nil => simp [batch_set]
      | cons u us => simp
    · intro hcache
      show (executeUpdate st table assignments wc).2 = _
      simp only [executeUpdate, hschema, hdup, hai, hcol]
      simp [thenInvalidate, invalidate_cache, hcache]

/-- Witness state for C1: table `t(id, count)` with one stored row. -/
def c1State : DBState :=
  ⟨[(Catalog.table_key "t", .schemaVal "t" [("id", "Integer"), ("count", "Integer")]),
    (tableDataPrefixBytes "t" ++ [0], .rowVal ⟨[.integer 1, .integer 10]⟩)], none, 0⟩

/-- Witness schema for C1. -/
def c1Schema : TableSchema :=
  ⟨"t", [⟨"id", .integer⟩, ⟨"count", .integer⟩]⟩

/-- Witness for `c1_update_coercion_and_batch`: assigning the text
`not a number` to the integer column `count`. -/
theorem c1_update_coercion_and_batch_witness :
    (Catalog.get_table c1State.kv "t" = .ok (some c1Schema))
    ∧ (((firstDupAux [] ([("count", Value.text "not a number")].map (·.1)) = none) →
      (∀ col ∈ c1Schema.columns, col.data_type ≠ .null) →
      (∀ a ∈ [("count", Value.text "not a number")], ∃ i,
        (c1Schema.columns.map (·.name)).findIdx? (fun n => n = a.1) = some i) →
      (∃ a ∈ [("count", Value.text "not a number")], ∃ i e,
        (c1Schema.columns.map (·.name)).findIdx? (fun n => n = a.1) = some i
        ∧ coerce_value a.1 (c1Schema.columns.getD i ⟨"", .null⟩).data_type a.2 = .error e) →
      ∃ cName suffix, execute c1State (.update "t" [("count", Value.text "not a number")] none) =
          (c1State, .error (.writeError ("Type mismatch for column " ++ cName ++ suffix)))
        ∧ ∃ v, (cName, v) ∈ [("count", Value.text "not a number")])
    ∧ (∀ ai updates,
        firstDupAux [] ([("count", Value.text "not a number")].map (·.1)) = none →
        buildAssignmentIndices c1Schema "t" [("count", Value.text "not a number")] = .ok ai →
        collectUpdates ⟨c1Schema.columns.map (·.name)⟩ none ai
          (prefixScan c1State.kv (tableDataPrefixBytes "t")) = .ok updates →
        (execute c1State (.update "t" [("count", Value.text "not a number")] none)).1.kv =
          batch_set c1State.kv (updates.map (fun kr => (kr.1, StoredVal.rowVal kr.2)))
        ∧ (c1State.cache = none →
            (execute c1State (.update "t" [("count", Value.text "not a number")] none)).2 =
              .ok (.updated "t" updates.length)))) :=
  ⟨by decide,
    c1_update_coercion_and_batch c1State "t" [("count", Value.text "not a number")] none
      c1Schema (by decide)⟩



theorem orderedInsert_congr {α : Type} (r s : α → α → Prop)
    [DecidableRel r] [DecidableRel s] (x : α) (l : List α)
    (h : ∀ b ∈ l, r x b ↔ s x b) :
    l.orderedInsert r x = l.orderedInsert s x := by
  induction l with
  | nil => rfl
  | cons y ys ih =>
    simp only [List.orderedInsert]
    by_cases hr : r x y
    · rw [if_pos hr, if_pos ((h y (List.mem_cons_self _ _)).mp hr)]
    · rw [if_neg hr, if_neg (fun hs => hr ((h y (List.mem_cons_self _ _)).mpr hs)),
        ih (fun b hb => h b (List.mem_cons_of_mem _ hb))]

theorem insertionSort_congr {α : Type} (r s : α → α → Prop)
    [DecidableRel r] [DecidableRel s] (l : List α)
    (h : ∀ a ∈ l, ∀ b ∈ l, r a b ↔ s a b) :
    l.insertionSort r = l.insertionSort s := by
  induction l with
  | nil => rfl
  | cons x xs ih =>
    simp only [List.insertionSort]
    rw [ih (fun a ha b hb =>
      h a (List.mem_cons_of_mem _ ha) b (List.mem_cons_of_mem _ hb))]
    exact orderedInsert_congr r s x _ (fun b hb =>
      h x (List.mem_cons_self _ _) b
        (List.mem_cons_of_mem _ ((List.mem_insertionSort s).mp hb)))

theorem filter_orderedInsert {α : Type} (r : α → α → Prop) [DecidableRel r]
    (p : α → Bool) (x : α) (l : List α)
    (hx : p x = true) (h : ∀ y ∈ l, ¬ r x y → p y = false) :
    (l.orderedInsert r x).filter p = x :: l.filter p := by
  induction l with
  | nil => simp [List.orderedInsert, hx]
  | cons y ys ih =>
    simp only [List.orderedInsert]
    by_cases hr : r x y
    · rw [if_pos hr]
      simp [List.filter_cons, hx]
    · rw [if_neg hr]
      have hpy : p y = false := h y (List.mem_cons_self _ _) hr
      simp [List.filter_cons, hpy,
        ih (fun z hz hrz => h z (List.mem_cons_of_mem _ hz) hrz)]

theorem filter_orderedInsert_neg {α : Type} (r : α → α → Prop) [DecidableRel r]
    (p : α → Bool) (x : α) (l : List α) (hx : p x = false) :
    (l.orderedInsert r x).filter p = l.filter p := by
  induction l with
  | nil => simp [List.orderedInsert, hx]
  | cons y ys ih =>
    simp only [List.orderedInsert]
    by_cases hr : r x y
    · rw [if_pos hr]
      simp [List.filter_cons, hx]
    · rw [if_neg hr]
      simp [List.filter_cons, ih]

theorem filter_insertionSort {α : Type} (r : α → α → Prop) [DecidableRel r]
    (p : α → Bool) (l : List α)
    (h : ∀ x ∈ l, p x = true → ∀ y ∈ l, ¬ r x y → p y = false) :
    (l.insertionSort r).filter p = l.filter p := by
  induction l with
  | nil => rfl
  | cons x xs ih =>
    simp only [List.insertionSort]
    have ihr := ih (fun a ha hpa b hb hrb =>
      h a (List.mem_cons_of_mem _ ha) hpa b (List.mem_cons_of_mem _ hb) hrb)
    by_cases hx : p x
    · rw [filter_orderedInsert r p x _ hx (fun y hy hry =>
        h x (List.mem_cons_self _ _) hx y
          (List.mem_cons_of_mem _ ((List.mem_insertionSort r).mp hy)) hry)]
      rw [ihr, List.filter_cons_of_pos hx]
    · rw [filter_orderedInsert_neg r p x _ (by simpa using hx)]
      rw [ihr, List.filter_cons_of_neg hx]

theorem intCompare_ne_gt (m n : Int) : (compare m n ≠ Ordering.gt) ↔ m ≤ n := by
  rw [ne_eq, compare_gt_iff_gt]
  exact not_lt



theorem value_cmp_cross_tag (a b : Value) (h : valueTag a ≠ valueTag b) :
    value_cmp a b = .eq := by
  cases a <;> cases b <;> first | rfl | (exact absurd rfl h)

theorem order_cmp_swap (j : Nat) (a b : Row) :
    order_cmp j false a b = (order_cmp j true a b).swap := rfl

/-- C4: the ORDER BY / LIMIT stage sorts stably per key in reverse
declaration order with cross-tag pairs comparing as equal and descending
direction inverting the comparison, then truncates to the limit; for a
single ascending integer-tagged key the pipeline output is the `take n` of
a stable sort of the scanned rows — a permutation sorted by the key whose
first `n` elements are below everything dropped (the n smallest), with
equal-key rows kept in input (insertion) order, stated as filter
stability. -/
theorem c4_order_by_limit (kv : KV) (schema : TableSchema) (table col : String)
    (i n : Nat) (rows : List Row)
    (hrows : rows = (prefixScan kv (tableDataPrefixBytes table)).filterMap
      (fun p => decodeRow p.2))
    (hfind : (schema.columns.map (·.name)).findIdx? (fun c => c = col) = some i)
    (hkeys : ∀ r ∈ rows, ∃ m, keyVal i r = .integer m) :
    (∀ a b, valueTag a ≠ valueTag b → value_cmp a b = .eq)
    ∧ (∀ j a b, order_cmp j false a b = (order_cmp j true a b).swap)
    ∧ applyOrderBy (schema.columns.map (·.name)) table [⟨col, true⟩] rows =
        .ok (List.insertionSort (fun a b => keyInt i a ≤ keyInt i b) rows)
    ∧ selectRows kv schema table none (some [⟨col, true⟩]) (some n) =
        .ok ((List.insertionSort (fun a b => keyInt i a ≤ keyInt i b) rows).take n)
    ∧ List.Sorted (fun a b => keyInt i a ≤ keyInt i b)
        (List.insertionSort (fun a b => keyInt i a ≤ keyInt i b) rows)
    ∧ List.Perm (List.insertionSort (fun a b => keyInt i a ≤ keyInt i b) rows) rows
    ∧ (∀ x ∈ (List.insertionSort (fun a b => keyInt i a ≤ keyInt i b) rows).take n,
        ∀ y ∈ (List.insertionSort (fun a b => keyInt i a ≤ keyInt i b) rows).drop n,
          keyInt i x ≤ keyInt i y)
    ∧ (∀ v : Int, (List.insertionSort (fun a b => keyInt i a ≤ keyInt i b) rows).filter
        (fun row => keyInt i row == v) = rows.filter (fun row => keyInt i row == v)) := by
  have hcongr : ∀ a ∈ rows, ∀ b ∈ rows,
      (cmpLe i true a b ↔ keyInt i a ≤ keyInt i b) := by
    intro a ha b hb
    obtain ⟨ma, hma⟩ := hkeys a ha
    obtain ⟨mb, hmb⟩ := hkeys b hb
    have hka : keyInt i a = ma := by simp [keyInt, hma]
    have hkb : keyInt i b = mb := by simp [keyInt, hmb]
    unfold cmpLe order_cmp
    rw [show a.values.getD i Value.null = keyVal i a from rfl, hma,
        show b.values.getD i Value.null = keyVal i b from rfl, hmb]
    simp [value_cmp, hka, hkb, intCompare_ne_gt]
  have hsort : sortByClause i true rows =
      List.insertionSort (fun a b => keyInt i a ≤ keyInt i b) rows := by
    unfold sortByClause
    exact insertionSort_congr _ _ rows hcongr
  have happly : applyOrderBy (schema.columns.map (·.name)) table [⟨col, true⟩] rows =
      .ok (List.insertionSort (fun a b => keyInt i a ≤ keyInt i b) rows) := by
    simp only [applyOrderBy, List.reverse_singleton, List.foldlM, hfind]
    simp [hsort, Bind.bind, Except.bind, pure, Except.pure]
  haveI : IsTotal Row (fun a b => keyInt i a ≤ keyInt i b) :=
    ⟨fun a b => le_total _ _⟩
  haveI : IsTrans Row (fun a b => keyInt i a ≤ keyInt i b) :=
    ⟨fun _ _ _ hab hbc => le_trans hab hbc⟩
  have hsorted : List.Sorted (fun a b => keyInt i a ≤ keyInt i b)
      (List.insertionSort (fun a b => keyInt i a ≤ keyInt i b) rows) :=
    List.sorted_insertionSort _ rows
  refine ⟨value_cmp_cross_tag, order_cmp_swap, happly, ?_, hsorted,
    List.perm_insertionSort _ rows, ?_, ?_⟩
  · simp only [selectRows]
    rw [← hrows, happly]
  · intro x hx y hy
    exact hsorted.rel_of_mem_take_of_mem_drop hx hy
  · intro v
    refine filter_insertionSort _ _ rows ?_
    intro x _ hpx y _ hry
    have hxv : keyInt i x = v := by simpa using hpx
    have : keyInt i y < keyInt i x := lt_of_not_le hry
    simp only [beq_eq_false_iff_ne, ne_eq]
    omega



/-- Witness store for C4: table `t` with rows 3, 1, 2 in insertion order. -/
def c4KV : KV :=
  [(Catalog.table_key "t", .schemaVal "t" [("id", "Integer")]),
   (tableDataPrefixBytes "t" ++ [0], .rowVal ⟨[.integer 3]⟩),
   (tableDataPrefixBytes "t" ++ [1], .rowVal ⟨[.integer 1]⟩),
   (tableDataPrefixBytes "t" ++ [2], .rowVal ⟨[.integer 2]⟩)]

/-- Witness schema for C4. -/
def c4Schema : TableSchema := ⟨"t", [⟨"id", .integer⟩]⟩

/-- Witness row list for C4: the decoded scan of `c4KV`. -/
def c4Rows : List Row := [⟨[.integer 3]⟩, ⟨[.integer 1]⟩, ⟨[.integer 2]⟩]

/-- Witness for `c4_order_by_limit` at three integer rows and limit 2. -/
theorem c4_order_by_limit_witness :
    (c4Rows = (prefixScan c4KV (tableDataPrefixBytes "t")).filterMap
        (fun p => decodeRow p.2)
      ∧ (c4Schema.columns.map (·.name)).findIdx? (fun c => c = "id") = some 0
      ∧ (∀ r ∈ c4Rows, ∃ m, keyVal 0 r = .integer m))
    ∧ ((∀ a b, valueTag a ≠ valueTag b → value_cmp a b = .eq)
      ∧ (∀ j a b, order_cmp j false a b = (order_cmp j true a b).swap)
      ∧ applyOrderBy (c4Schema.columns.map (·.name)) "t" [⟨"id", true⟩] c4Rows =
          .ok (List.insertionSort (fun a b => keyInt 0 a ≤ keyInt 0 b) c4Rows)
      ∧ selectRows c4KV c4Schema "t" none (some [⟨"id", true⟩]) (some 2) =
          .ok ((List.insertionSort (fun a b => keyInt 0 a ≤ keyInt 0 b) c4Rows).take 2)
      ∧ List.Sorted (fun a b => keyInt 0 a ≤ keyInt 0 b)
          (List.insertionSort (fun a b => keyInt 0 a ≤ keyInt 0 b) c4Rows)
      ∧ List.Perm (List.insertionSort (fun a b => keyInt 0 a ≤ keyInt 0 b) c4Rows) c4Rows
      ∧ (∀ x ∈ (List.insertionSort (fun a b => keyInt 0 a ≤ keyInt 0 b) c4Rows).take 2,
          ∀ y ∈ (List.insertionSort (fun a b => keyInt 0 a ≤ keyInt 0 b) c4Rows).drop 2,
            keyInt 0 x ≤ keyInt 0 y)
      ∧ (∀ v : Int, (List.insertionSort (fun a b => keyInt 0 a ≤ keyInt 0 b) c4Rows).filter
          (fun row => keyInt 0 row == v) =
            c4Rows.filter (fun row => keyInt 0 row == v))) :=
  ⟨⟨by decide, by decide, by
      intro r hr
      fin_cases hr
      · exact ⟨3, rfl⟩
      · exact ⟨1, rfl⟩
      · exact ⟨2, rfl⟩⟩,
    c4_order_by_limit c4KV c4Schema "t" "id" 0 2 c4Rows (by decide) (by decide)
      (by
        intro r hr
        fin_cases hr
        · exact ⟨3, rfl⟩
        · exact ⟨1, rfl⟩
        · exact ⟨2, rfl⟩)⟩


end NexumDB
